import Mathlib

/-
Verification of the slack-mixpanel ETL pipeline core, as a shallow embedding
of the JavaScript source in Lean 4.

Embedded modules of the repository:
  - src/jobs/extract.js      (enrichUserRecords, enrichChannelRecords,
                              extractMemberAnalytics, extractChannelAnalytics,
                              shuffleArray, MAX_ENRICHMENT)
  - src/jobs/load.js         (uploadBatch, loadMemberAnalytics, loadChannelAnalytics)
  - src/services/slack.js    (the per-day fetchData closure of analytics)
  - src/services/storage.js  (fileExists, writeJSONLGz, getFullPath)
  - src/transforms/members.js + the channel transforms file
                             (transformMemberProfile, transformChannelProfile)
  - src/jobs/run-pipeline.js (parseParameters)

Modelling conventions:
  - JavaScript runtime values are modelled by the inductive JVal, with an
    explicit constructor for the JS value undefined.  Numbers are modelled
    as integers (all numeric fields relevant to the claims are integers).
  - A JS object is an association list of string keys (Obj).  Reads take the
    first binding; spread-with-override updates in place or appends, which is
    exactly the key-ordering behaviour of JS object spread.
  - JS strict equality (and the SameValueZero key equality of Map and Set)
    is modelled by jsStrictEq: structural on primitives, and false on two
    composite values, since two separately materialised objects or arrays are
    distinct references in JS.  Identifiers compared this way in the source
    are strings in every schema of the repository.
  - Network and random effects are oracles passed as function arguments: a
    detail-lookup oracle, a per-day analytics oracle, an upload oracle per
    attempt, and a shuffle function assumed (where needed) to permute its
    input, which is the contract of the Fisher-Yates shuffleArray.
  - Thrown JS exceptions are modelled with Except String; code that catches
    them matches on the error branch.
-/

namespace SlackMP

/-- JSON-like JS runtime value, including undefined. -/
inductive JVal where
  | undefined : JVal
  | null  : JVal
  | bool  : Bool → JVal
  | num   : Int → JVal
  | str   : String → JVal
  | arr   : List JVal → JVal
  | obj   : List (String × JVal) → JVal

/-- JS strict equality and Map/Set key equality: structural on primitives,
false on composites (distinct references). -/
def jsStrictEq : JVal → JVal → Bool
  | .undefined, .undefined => true
  | .null, .null => true
  | .bool a, .bool b => a == b
  | .num a, .num b => a == b
  | .str a, .str b => a == b
  | _, _ => false

theorem jsStrictEq_symm (a b : JVal) : jsStrictEq a b = jsStrictEq b a := by
  cases a <;> cases b <;> simp [jsStrictEq] <;>
    exact ⟨fun h => h.symm, fun h => h.symm⟩

/-- JS truthiness. -/
def truthy : JVal → Bool
  | .undefined => false
  | .null => false
  | .bool b => b
  | .num n => n != 0
  | .str s => s != ""
  | .arr _ => true
  | .obj _ => true

/-- The JS expression e OR null (used as map.get(id) OR null). -/
def jsOrNull (v : JVal) : JVal := if truthy v then v else .null

/-- A JS object: association list of string keys, first binding wins on read. -/
abbrev Obj := List (String × JVal)

def objHas (o : Obj) (k : String) : Bool := o.any (fun p => p.1 == k)

/-- Property read: value of the first binding of k, or undefined. -/
def jsGet (o : Obj) (k : String) : JVal :=
  match o.find? (fun p => p.1 == k) with
  | some p => p.2
  | none => .undefined

/-- Object update as by spread-with-override or assignment: replaces every
binding of k in place, or appends a new binding. -/
def objSet (o : Obj) (k : String) (v : JVal) : Obj :=
  if objHas o k then o.map (fun p => if p.1 == k then (k, v) else p)
  else o ++ [(k, v)]

theorem jsGet_cons_match {p : String × JVal} {o : Obj} {k : String}
    (hk : (p.1 == k) = true) : jsGet (p :: o) k = p.2 := by
  simp [jsGet, List.find?, hk]

theorem jsGet_cons_skip {p : String × JVal} {o : Obj} {k : String}
    (hk : (p.1 == k) = false) : jsGet (p :: o) k = jsGet o k := by
  simp [jsGet, List.find?, hk]

theorem jsGet_append_single_of_not_has {o : Obj} {k : String} (v : JVal)
    (h : objHas o k = false) : jsGet (o ++ [(k, v)]) k = v := by
  induction o with
  | nil => simp [jsGet, List.find?]
  | cons p o ih =>
      simp only [objHas, List.any_cons, Bool.or_eq_false_iff] at h
      rw [List.cons_append, jsGet_cons_skip h.1]
      exact ih h.2

theorem jsGet_map_override {o : Obj} {k : String} (v : JVal)
    (h : objHas o k = true) :
    jsGet (o.map (fun p => if p.1 == k then (k, v) else p)) k = v := by
  induction o with
  | nil => simp [objHas] at h
  | cons p o ih =>
      simp only [objHas, List.any_cons, Bool.or_eq_true] at h
      by_cases hk : (p.1 == k) = true
      · rw [List.map_cons, if_pos hk]
        exact jsGet_cons_match (by simp)
      · rw [List.map_cons, if_neg hk, jsGet_cons_skip (Bool.eq_false_iff.mpr hk)]
        rcases h with h | h
        · exact absurd h hk
        · exact ih h

/-- Reading back a key just written. -/
theorem jsGet_objSet_same (o : Obj) (k : String) (v : JVal) :
    jsGet (objSet o k v) k = v := by
  unfold objSet
  by_cases h : objHas o k = true
  · rw [if_pos h]; exact jsGet_map_override v h
  · rw [if_neg h]
    exact jsGet_append_single_of_not_has v (Bool.eq_false_iff.mpr h)

theorem jsGet_map_ne {o : Obj} {k k' : String} (v : JVal)
    (h : (k == k') = false) :
    jsGet (o.map (fun p => if p.1 == k then (k, v) else p)) k' = jsGet o k' := by
  induction o with
  | nil => rfl
  | cons p o ih =>
      rw [List.map_cons]
      by_cases hp : (p.1 == k) = true
      · have hp1 : p.1 = k := by simpa using hp
        rw [if_pos hp, jsGet_cons_skip h, jsGet_cons_skip (by rw [hp1]; exact h)]
        exact ih
      · rw [if_neg hp]
        by_cases hc : (p.1 == k') = true
        · rw [jsGet_cons_match hc, jsGet_cons_match hc]
        · rw [jsGet_cons_skip (Bool.eq_false_iff.mpr hc),
            jsGet_cons_skip (Bool.eq_false_iff.mpr hc)]
          exact ih

theorem jsGet_append_ne {o : Obj} {k k' : String} (v : JVal)
    (h : (k == k') = false) :
    jsGet (o ++ [(k, v)]) k' = jsGet o k' := by
  induction o with
  | nil =>
      show jsGet ((k, v) :: []) k' = jsGet [] k'
      exact jsGet_cons_skip h
  | cons p o ih =>
      rw [List.cons_append]
      by_cases hc : (p.1 == k') = true
      · rw [jsGet_cons_match hc, jsGet_cons_match hc]
      · rw [jsGet_cons_skip (Bool.eq_false_iff.mpr hc),
          jsGet_cons_skip (Bool.eq_false_iff.mpr hc)]
        exact ih

/-- Writing one key leaves every other key unchanged. -/
theorem jsGet_objSet_ne (o : Obj) (k : String) (v : JVal) (k' : String)
    (h : (k == k') = false) : jsGet (objSet o k v) k' = jsGet o k' := by
  unfold objSet
  by_cases hh : objHas o k = true
  · rw [if_pos hh]; exact jsGet_map_ne v h
  · rw [if_neg hh]; exact jsGet_append_ne v h

/-- The run-scoped enrichment cache: a JS Map from entity id to detail object. -/
abbrev Cache := List (JVal × JVal)

def cacheHas (c : Cache) (k : JVal) : Bool := c.any (fun p => jsStrictEq p.1 k)

def cacheGet (c : Cache) (k : JVal) : Option JVal :=
  (c.find? (fun p => jsStrictEq p.1 k)).map (fun p => p.2)

/-- Map.prototype.set: overwrite in place or append. -/
def cacheSet (c : Cache) (k : JVal) (v : JVal) : Cache :=
  if cacheHas c k then c.map (fun p => if jsStrictEq p.1 k then (k, v) else p)
  else c ++ [(k, v)]

theorem cacheSet_of_not_has {c : Cache} {k : JVal} (v : JVal)
    (h : cacheHas c k = false) : cacheSet c k v = c ++ [(k, v)] := by
  simp [cacheSet, h]

theorem length_cacheSet_of_not_has {c : Cache} {k : JVal} (v : JVal)
    (h : cacheHas c k = false) : (cacheSet c k v).length = c.length + 1 := by
  rw [cacheSet_of_not_has v h]; simp

theorem cacheHas_append_single (c : Cache) (k k2 : JVal) (v : JVal) :
    cacheHas (c ++ [(k, v)]) k2 = (cacheHas c k2 || jsStrictEq k k2) := by
  simp [cacheHas]

/-- Dedup by first occurrence, as by spreading a JS Set built from a list. -/
def setDedupAux (seen : List JVal) : List JVal → List JVal
  | [] => []
  | x :: xs =>
      if seen.any (fun s => jsStrictEq s x) then setDedupAux seen xs
      else x :: setDedupAux (x :: seen) xs

def setDedup (l : List JVal) : List JVal := setDedupAux [] l

theorem mem_setDedupAux {seen : List JVal} {l : List JVal} {y : JVal}
    (h : y ∈ setDedupAux seen l) :
    y ∈ l ∧ (seen.any (fun s => jsStrictEq s y)) = false := by
  induction l generalizing seen with
  | nil => simp [setDedupAux] at h
  | cons x xs ih =>
      simp only [setDedupAux] at h
      by_cases hs : (seen.any (fun s => jsStrictEq s x)) = true
      · rw [if_pos hs] at h
        obtain ⟨h1, h2⟩ := ih h
        exact ⟨List.mem_cons_of_mem _ h1, h2⟩
      · rw [if_neg hs] at h
        rcases List.mem_cons.mp h with rfl | h
        · exact ⟨List.mem_cons_self _ _, Bool.eq_false_iff.mpr hs⟩
        · obtain ⟨h1, h2⟩ := ih h
          simp only [List.any_cons, Bool.or_eq_false_iff] at h2
          exact ⟨List.mem_cons_of_mem _ h1, h2.2⟩

theorem pairwise_setDedupAux (seen : List JVal) (l : List JVal) :
    (setDedupAux seen l).Pairwise (fun a b => jsStrictEq a b = false) := by
  induction l generalizing seen with
  | nil => simp [setDedupAux]
  | cons x xs ih =>
      simp only [setDedupAux]
      by_cases hs : (seen.any (fun s => jsStrictEq s x)) = true
      · rw [if_pos hs]; exact ih seen
      · rw [if_neg hs]
        refine List.Pairwise.cons ?_ (ih (x :: seen))
        intro y hy
        have h2 := (mem_setDedupAux hy).2
        simp only [List.any_cons, Bool.or_eq_false_iff] at h2
        exact h2.1

theorem pairwise_setDedup (l : List JVal) :
    (setDedup l).Pairwise (fun a b => jsStrictEq a b = false) :=
  pairwise_setDedupAux [] l

/-
Enrichment (src/jobs/extract.js, enrichUserRecords and enrichChannelRecords).
The two source functions are line-for-line identical up to the id field name,
the log strings and the per-request delay, so they are embedded as one
function parametrised by the id key.  The shared Map passed in by the extract
loop is the cache; the Slack detail lookup (getUserDetails resp.
getChannelDetails) is the fetch oracle; the Math.random driven Fisher-Yates
shuffleArray is the shuffle oracle, assumed where needed to permute its input.
-/

/-- Result of one enrich call: the records with ENRICHED attached, the updated
shared cache, and the number of detail-lookup calls made by this call. -/
structure EnrichOut where
  records : List Obj
  cache : Cache
  calls : Nat

/-- records.map(r to r[idKey]).filter(Boolean) -/
def truthyIds (idKey : String) (records : List Obj) : List JVal :=
  (records.map (fun r => jsGet r idKey)).filter truthy

/-- uniqueIds.filter(id to not cache.has(id)), uniqueIds being the spread Set. -/
def uncachedIds (idKey : String) (cache : Cache) (records : List Obj) : List JVal :=
  (setDedup (truthyIds idKey records)).filter (fun uid => !(cacheHas cache uid))

/-- The ids selected for fetching this call: empty when the records list is
empty, when remainingSlots = MAX_ENRICHMENT - cache.size is not positive, or
when every unique id is already cached; otherwise the first remainingSlots
elements of the shuffled uncached ids. -/
def enrichSelection (maxE : Int) (shuffle : List JVal → List JVal) (idKey : String)
    (cache : Cache) (records : List Obj) : List JVal :=
  if records.isEmpty then []
  else
    let unc := uncachedIds idKey cache records
    if maxE - (cache.length : Int) ≤ 0 then []
    else if unc.isEmpty then []
    else (shuffle unc).take (maxE - (cache.length : Int)).toNat

/-- One sequential detail lookup: on success cache the detail object, on a
thrown error cache the sentinel object with the error message; either way one
call was made. -/
def enrichStep (fetch : JVal → Except String JVal) (st : Cache × Nat) (uid : JVal) :
    Cache × Nat :=
  match fetch uid with
  | .ok d => (cacheSet st.1 uid d, st.2 + 1)
  | .error m => (cacheSet st.1 uid (.obj [("error", .str m)]), st.2 + 1)

/-- records.map(record to (spread record, ENRICHED: map.get(record[idKey]) or null)) -/
def attachEnriched (idKey : String) (c : Cache) (records : List Obj) : List Obj :=
  records.map (fun r =>
    objSet r "ENRICHED" (jsOrNull ((cacheGet c (jsGet r idKey)).getD .undefined)))

/-- Shared embedding of enrichUserRecords and enrichChannelRecords with the
shared-cache signature: guard on empty records, cap and all-cached early
returns that attach from the cache only, else shuffle, take the remaining
slots, fetch sequentially, and attach from the updated cache. -/
def enrichRecords (idKey : String) (maxE : Int) (fetch : JVal → Except String JVal)
    (shuffle : List JVal → List JVal) (records : List Obj) (cache : Cache) : EnrichOut :=
  if records.isEmpty then ⟨records, cache, 0⟩
  else
    ⟨attachEnriched idKey
        ((enrichSelection maxE shuffle idKey cache records).foldl
          (enrichStep fetch) (cache, 0)).1 records,
      ((enrichSelection maxE shuffle idKey cache records).foldl
        (enrichStep fetch) (cache, 0)).1,
      ((enrichSelection maxE shuffle idKey cache records).foldl
        (enrichStep fetch) (cache, 0)).2⟩

def enrichUserRecords : Int → (JVal → Except String JVal) →
    (List JVal → List JVal) → List Obj → Cache → EnrichOut :=
  enrichRecords "user_id"

def enrichChannelRecords : Int → (JVal → Except String JVal) →
    (List JVal → List JVal) → List Obj → Cache → EnrichOut :=
  enrichRecords "channel_id"

/-- MAX_ENRICHMENT as defined in extract.js: 1000 in production, 10 otherwise. -/
def MAX_ENRICHMENT (production : Bool) : Int := if production then 1000 else 10

theorem enrichSelection_length (maxE : Int) (shuffle : List JVal → List JVal)
    (idKey : String) (cache : Cache) (records : List Obj) :
    (enrichSelection maxE shuffle idKey cache records).length ≤
      (maxE - (cache.length : Int)).toNat := by
  unfold enrichSelection
  by_cases h0 : records.isEmpty
  · simp [h0]
  · rw [if_neg h0]
    by_cases h1 : maxE - (cache.length : Int) ≤ 0
    · simp [h1]
    · rw [if_neg h1]
      by_cases h2 : (uncachedIds idKey cache records).isEmpty
      · simp [h2]
      · rw [if_neg h2]
        calc ((shuffle (uncachedIds idKey cache records)).take
                (maxE - (cache.length : Int)).toNat).length
            ≤ (maxE - (cache.length : Int)).toNat := by
              rw [List.length_take]; exact Nat.min_le_left _ _

theorem enrichSelection_mem (maxE : Int) (shuffle : List JVal → List JVal)
    (idKey : String) (cache : Cache) (records : List Obj)
    (hshuf : ∀ l, List.Perm (shuffle l) l) :
    ∀ uid ∈ enrichSelection maxE shuffle idKey cache records,
      cacheHas cache uid = false := by
  intro uid hmem
  unfold enrichSelection at hmem
  by_cases h0 : records.isEmpty
  · simp [h0] at hmem
  · rw [if_neg h0] at hmem
    by_cases h1 : maxE - (cache.length : Int) ≤ 0
    · simp [h1] at hmem
    · rw [if_neg h1] at hmem
      by_cases h2 : (uncachedIds idKey cache records).isEmpty
      · simp [h2] at hmem
      · rw [if_neg h2] at hmem
        have h3 : uid ∈ shuffle (uncachedIds idKey cache records) :=
          List.take_subset _ _ hmem
        have h4 : uid ∈ uncachedIds idKey cache records :=
          (hshuf _).mem_iff.mp h3
        have h5 := List.of_mem_filter h4
        simpa using h5

theorem enrichSelection_pairwise (maxE : Int) (shuffle : List JVal → List JVal)
    (idKey : String) (cache : Cache) (records : List Obj)
    (hshuf : ∀ l, List.Perm (shuffle l) l) :
    (enrichSelection maxE shuffle idKey cache records).Pairwise
      (fun a b => jsStrictEq a b = false) := by
  unfold enrichSelection
  by_cases h0 : records.isEmpty
  · simp [h0]
  · rw [if_neg h0]
    by_cases h1 : maxE - (cache.length : Int) ≤ 0
    · simp [h1]
    · rw [if_neg h1]
      by_cases h2 : (uncachedIds idKey cache records).isEmpty
      · simp [h2]
      · rw [if_neg h2]
        have hunc : (uncachedIds idKey cache records).Pairwise
            (fun a b => jsStrictEq a b = false) :=
          (pairwise_setDedup _).filter _
        have hsh : (shuffle (uncachedIds idKey cache records)).Pairwise
            (fun a b => jsStrictEq a b = false) :=
          ((hshuf _).pairwise_iff (fun {a b} h => by
            rw [jsStrictEq_symm]; exact h)).mpr hunc
        exact hsh.sublist (List.take_sublist _ _)

theorem enrich_foldl_growth (fetch : JVal → Except String JVal) :
    ∀ (sel : List JVal) (cache : Cache) (n : Nat),
      (∀ uid ∈ sel, cacheHas cache uid = false) →
      sel.Pairwise (fun a b => jsStrictEq a b = false) →
      (sel.foldl (enrichStep fetch) (cache, n)).1.length = cache.length + sel.length ∧
      (sel.foldl (enrichStep fetch) (cache, n)).2 = n + sel.length := by
  intro sel
  induction sel with
  | nil => intro cache n _ _; simp
  | cons uid rest ih =>
      intro cache n hun hpw
      have huid : cacheHas cache uid = false := hun uid (List.mem_cons_self _ _)
      have hrel : ∀ w ∈ rest, jsStrictEq uid w = false :=
        (List.pairwise_cons.mp hpw).1
      have hpw' : rest.Pairwise (fun a b => jsStrictEq a b = false) :=
        (List.pairwise_cons.mp hpw).2
      have hstep : ∃ v, enrichStep fetch (cache, n) uid = (cache ++ [(uid, v)], n + 1) := by
        cases hfe : fetch uid with
        | ok d =>
            refine ⟨d, ?_⟩
            simp [enrichStep, hfe, cacheSet_of_not_has d huid]
        | error m =>
            refine ⟨.obj [("error", .str m)], ?_⟩
            simp [enrichStep, hfe, cacheSet_of_not_has _ huid]
      obtain ⟨v, hv⟩ := hstep
      have hun' : ∀ w ∈ rest, cacheHas (cache ++ [(uid, v)]) w = false := by
        intro w hw
        rw [cacheHas_append_single]
        rw [hun w (List.mem_cons_of_mem _ hw), hrel w hw]
        rfl
      have hrest := ih (cache ++ [(uid, v)]) (n + 1) hun' hpw'
      rw [List.foldl_cons, hv]
      constructor
      · rw [hrest.1]
        simp only [List.length_append, List.length_cons, List.length_nil]
        omega
      · rw [hrest.2]
        simp only [List.length_cons]
        omega

/-- Growth law of one enrich call under the permutation contract of the
shuffle: the cache grows by exactly the number of detail-lookup calls made,
and that number is at most MAX_ENRICHMENT minus the incoming cache size. -/
theorem enrichRecords_growth (idKey : String) (maxE : Int)
    (fetch : JVal → Except String JVal) (shuffle : List JVal → List JVal)
    (records : List Obj) (cache : Cache)
    (hshuf : ∀ l, List.Perm (shuffle l) l) :
    (enrichRecords idKey maxE fetch shuffle records cache).cache.length =
      cache.length + (enrichRecords idKey maxE fetch shuffle records cache).calls ∧
    (enrichRecords idKey maxE fetch shuffle records cache).calls ≤
      (maxE - (cache.length : Int)).toNat := by
  unfold enrichRecords
  by_cases h0 : records.isEmpty
  · simp [h0]
  · rw [if_neg h0]
    have hg := enrich_foldl_growth fetch (enrichSelection maxE shuffle idKey cache records)
      cache 0 (enrichSelection_mem maxE shuffle idKey cache records hshuf)
      (enrichSelection_pairwise maxE shuffle idKey cache records hshuf)
    have hlen := enrichSelection_length maxE shuffle idKey cache records
    constructor
    · simp only
      rw [hg.1, hg.2]
      omega
    · simp only
      rw [hg.2]
      omega

/-- Cap preservation: if the cache respects the cap coming in, it respects it
going out. -/
theorem enrichRecords_cap (idKey : String) (maxN : Nat)
    (fetch : JVal → Except String JVal) (shuffle : List JVal → List JVal)
    (records : List Obj) (cache : Cache)
    (hshuf : ∀ l, List.Perm (shuffle l) l)
    (hle : cache.length ≤ maxN) :
    (enrichRecords idKey (maxN : Int) fetch shuffle records cache).cache.length ≤ maxN := by
  have h := enrichRecords_growth idKey (maxN : Int) fetch shuffle records cache hshuf
  omega

/-- Every output record of an enrich call carries an ENRICHED value that is
either null or a value stored in the resulting cache. -/
theorem enrichRecords_attached (idKey : String) (maxE : Int)
    (fetch : JVal → Except String JVal) (shuffle : List JVal → List JVal)
    (records : List Obj) (cache : Cache) :
    ∀ r ∈ (enrichRecords idKey maxE fetch shuffle records cache).records,
      ∃ v, jsGet r "ENRICHED" = v ∧
        (v = .null ∨ ∃ uid, cacheGet (enrichRecords idKey maxE fetch shuffle records cache).cache uid = some v) := by
  intro r hr
  unfold enrichRecords at hr ⊢
  by_cases h0 : records.isEmpty
  · rw [if_pos h0] at hr
    simp only at hr
    rw [List.isEmpty_iff.mp h0] at hr
    simp at hr
  · rw [if_neg h0] at hr ⊢
    simp only [attachEnriched, List.mem_map] at hr
    obtain ⟨r0, _, rfl⟩ := hr
    set c' := ((enrichSelection maxE shuffle idKey cache records).foldl
      (enrichStep fetch) (cache, 0)).1 with hc'
    refine ⟨_, jsGet_objSet_same _ _ _, ?_⟩
    cases hv : cacheGet c' (jsGet r0 idKey) with
    | none => left; simp [hv, jsOrNull, truthy]
    | some u =>
        by_cases ht : truthy u = true
        · right
          refine ⟨jsGet r0 idKey, ?_⟩
          simp only [hv, Option.getD_some, jsOrNull, ht, if_true]
        · left
          simp [hv, jsOrNull, ht]

/-- A cap of zero makes no detail-lookup calls at all (and, by
enrichRecords_attached, still returns well-formed output). -/
theorem enrichRecords_zero_cap (idKey : String)
    (fetch : JVal → Except String JVal) (shuffle : List JVal → List JVal)
    (records : List Obj) (cache : Cache) :
    (enrichRecords idKey 0 fetch shuffle records cache).calls = 0 := by
  unfold enrichRecords
  by_cases h0 : records.isEmpty
  · simp [h0]
  · rw [if_neg h0]
    have hsel : enrichSelection 0 shuffle idKey cache records = [] := by
      unfold enrichSelection
      rw [if_neg h0, if_pos (by omega)]
    simp [hsel]

/-
Calendar dates.  extract.js enumerates the inclusive day range with
dayjs.utc diff and add; this is embedded with the standard civil-calendar
serial-day conversion (days since 1970-01-01).
-/

structure YMD where
  y : Nat
  m : Nat
  d : Nat

def isLeap (y : Nat) : Bool := y % 4 == 0 && (y % 100 != 0 || y % 400 == 0)

def daysInMonth (y m : Nat) : Nat :=
  if m == 1 || m == 3 || m == 5 || m == 7 || m == 8 || m == 10 || m == 12 then 31
  else if m == 4 || m == 6 || m == 9 || m == 11 then 30
  else if isLeap y then 29 else 28

def digitVal (c : Char) : Nat := c.toNat - 48

/-- Strict YYYY-MM-DD parse with calendar validation. -/
def parseDate (s : String) : Option YMD :=
  match s.toList with
  | [a, b, c, d, '-', e, f, '-', g, h] =>
      if a.isDigit && b.isDigit && c.isDigit && d.isDigit &&
          e.isDigit && f.isDigit && g.isDigit && h.isDigit then
        let y := digitVal a * 1000 + digitVal b * 100 + digitVal c * 10 + digitVal d
        let m := digitVal e * 10 + digitVal f
        let dd := digitVal g * 10 + digitVal h
        if 1 ≤ m && m ≤ 12 && 1 ≤ dd && dd ≤ daysInMonth y m then some ⟨y, m, dd⟩
        else none
      else none
  | _ => none

/-- Serial day number (days since 1970-01-01), civil-from-days algorithm. -/
def dateSerial (dt : YMD) : Int :=
  let y : Int := (dt.y : Int) - (if dt.m ≤ 2 then 1 else 0)
  let era : Int := y.fdiv 400
  let yoe : Int := y - era * 400
  let mp : Int := ((dt.m : Int) + 9) % 12
  let doy : Int := (153 * mp + 2).fdiv 5 + (dt.d : Int) - 1
  let doe : Int := yoe * 365 + yoe.fdiv 4 - yoe.fdiv 100 + doy
  era * 146097 + doe - 719468

def serialToDate (z0 : Int) : YMD :=
  let z := z0 + 719468
  let era : Int := z.fdiv 146097
  let doe : Nat := (z - era * 146097).toNat
  let yoe : Nat := (doe - doe / 1460 + doe / 36524 - doe / 146096) / 365
  let doy : Nat := doe - (365 * yoe + yoe / 4 - yoe / 100)
  let mp : Nat := (5 * doy + 2) / 153
  let d : Nat := doy - (153 * mp + 2) / 5 + 1
  let m : Nat := if mp < 10 then mp + 3 else mp - 9
  let y : Int := (yoe : Int) + era * 400 + (if m ≤ 2 then 1 else 0)
  ⟨y.toNat, m, d⟩

def pad2 (n : Nat) : String := if n < 10 then "0" ++ toString n else toString n

def pad4 (n : Nat) : String :=
  if n < 10 then "000" ++ toString n
  else if n < 100 then "00" ++ toString n
  else if n < 1000 then "0" ++ toString n
  else toString n

def formatDate (dt : YMD) : String := pad4 dt.y ++ "-" ++ pad2 dt.m ++ "-" ++ pad2 dt.d

/-- daysToFetch of extract.js: every calendar day of the inclusive range, in
chronological order; empty when the range is invalid or reversed. -/
def dayRange (d1 d2 : String) : List String :=
  match parseDate d1, parseDate d2 with
  | some a, some b =>
      if dateSerial a ≤ dateSerial b then
        (List.range ((dateSerial b - dateSerial a).toNat + 1)).map
          (fun (i : Nat) => formatDate (serialToDate (dateSerial a + (i : Int))))
      else []
  | _, _ => []

theorem dayRange_length {d1 d2 : String} {a b : YMD}
    (hp1 : parseDate d1 = some a) (hp2 : parseDate d2 = some b)
    (hle : dateSerial a ≤ dateSerial b) :
    (dayRange d1 d2).length = (dateSerial b - dateSerial a).toNat + 1 := by
  unfold dayRange
  rw [hp1, hp2]
  simp only [hle, if_true, List.length_map, List.length_range]

/-
Blob store (src/services/storage.js): fileExists, writeJSONLGz, getFullPath,
restricted to what the extract and load stages use.  The store content is the
map from relative path to the written record array.
-/

structure Store where
  files : List (String × List Obj)

def storeHas (s : Store) (p : String) : Bool := s.files.any (fun q => q.1 == p)

def storeGet (s : Store) (p : String) : Option (List Obj) :=
  (s.files.find? (fun q => q.1 == p)).map (fun q => q.2)

def storeWrite (s : Store) (p : String) (data : List Obj) : Store :=
  if storeHas s p then ⟨s.files.map (fun q => if q.1 == p then (p, data) else q)⟩
  else ⟨s.files ++ [(p, data)]⟩

/-- getFullPath of storage.js resolves a relative path against the storage
base without any further I/O. -/
def getFullPath (basePath : String) (p : String) : String := basePath ++ "/" ++ p

theorem storeGet_cons_match {e : String × List Obj} {l : List (String × List Obj)}
    {p : String} (h : (e.1 == p) = true) : storeGet ⟨e :: l⟩ p = some e.2 := by
  simp [storeGet, List.find?, h]

theorem storeGet_cons_skip {e : String × List Obj} {l : List (String × List Obj)}
    {p : String} (h : (e.1 == p) = false) : storeGet ⟨e :: l⟩ p = storeGet ⟨l⟩ p := by
  simp [storeGet, List.find?, h]

theorem storeGet_map_override {l : List (String × List Obj)} {p : String}
    (data : List Obj) (h : (l.any fun q => q.1 == p) = true) :
    storeGet ⟨l.map (fun e => if e.1 == p then (p, data) else e)⟩ p = some data := by
  induction l with
  | nil => simp at h
  | cons e l ih =>
      simp only [List.any_cons, Bool.or_eq_true] at h
      by_cases he : (e.1 == p) = true
      · rw [List.map_cons, if_pos he]
        exact storeGet_cons_match (by simp)
      · rw [List.map_cons, if_neg he]
        have h2 : (l.any fun q => q.1 == p) = true := by
          rcases h with h | h
          · exact absurd h he
          · exact h
        exact (storeGet_cons_skip (Bool.eq_false_iff.mpr he)).trans (ih h2)

theorem storeGet_append_single {l : List (String × List Obj)} {p : String}
    (data : List Obj) (h : (l.any fun q => q.1 == p) = false) :
    storeGet ⟨l ++ [(p, data)]⟩ p = some data := by
  induction l with
  | nil => simp [storeGet, List.find?]
  | cons e l ih =>
      simp only [List.any_cons, Bool.or_eq_false_iff] at h
      rw [List.cons_append, storeGet_cons_skip h.1]
      exact ih h.2

/-- Reading back the DayFile just written. -/
theorem storeGet_storeWrite_same (s : Store) (p : String) (data : List Obj) :
    storeGet (storeWrite s p data) p = some data := by
  by_cases h : storeHas s p = true
  · rw [storeWrite, if_pos h]
    exact storeGet_map_override data h
  · rw [storeWrite, if_neg h]
    exact storeGet_append_single data (Bool.eq_false_iff.mpr h)

theorem storeHas_storeWrite (s : Store) (p : String) (data : List Obj) (q : String) :
    storeHas (storeWrite s p data) q = (storeHas s q || (p == q)) := by
  have hmap : ∀ l : List (String × List Obj),
      (l.map (fun e => if e.1 == p then (p, data) else e)).any (fun e => e.1 == q)
        = l.any (fun e => e.1 == q) := by
    intro l
    induction l with
    | nil => rfl
    | cons e l ih =>
        simp only [List.map_cons, List.any_cons, ih]
        congr 1
        by_cases he : (e.1 == p) = true
        · have he2 : e.1 = p := by simpa using he
          rw [if_pos he, he2]
        · rw [if_neg he]
  by_cases h : storeHas s p = true
  · rw [storeWrite, if_pos h]
    have h2 : storeHas ⟨s.files.map (fun e => if e.1 == p then (p, data) else e)⟩ q
        = storeHas s q := hmap s.files
    rw [h2]
    by_cases hq : (p == q) = true
    · have heq : p = q := by simpa using hq
      subst heq
      simp [h, hq]
    · have hq2 : (p == q) = false := Bool.eq_false_iff.mpr hq
      simp [hq2]
  · rw [storeWrite, if_neg h]
    show (s.files ++ [(p, data)]).any (fun e => e.1 == q) = _
    rw [List.any_append]
    simp [storeHas]

/-
Extract stage (src/jobs/extract.js, extractMemberAnalytics and
extractChannelAnalytics).  The two functions are identical up to the path
prefix, the id key, the enrich function and the members-only company-domain
filter, and are embedded as one day-loop parametrised by a pipeline
configuration.  Oracles: the per-day analytics fetch (one
slackService.analytics(date, date, kind, false) call), the detail lookup and
the shuffle (both threaded into enrichRecords).  The instrumentation fields
fetches, writes and calls count, per extract call, the analytics fetches
attempted, the day files written and the detail-lookup calls made.
-/

def jsEndsWith (s suffix : String) : Bool := suffix.data.isSuffixOf s.data

/-- String.prototype.startsWith, as a structural prefix test. -/
def jsStartsWith (s pre : String) : Bool := pre.data.isPrefixOf s.data

/-- The filter callback record.email_address and
record.email_address.endsWith(at-domain): false on a falsy field, suffix test
on a truthy string, thrown TypeError on a truthy non-string. -/
def emailPred (dom : String) (r : Obj) : Except String Bool :=
  let v := jsGet r "email_address"
  if truthy v then
    match v with
    | .str s => .ok (jsEndsWith s ("@" ++ dom))
    | _ => .error "TypeError: record.email_address.endsWith is not a function"
  else .ok false

/-- Array.prototype.filter with a callback that can throw: elements are
tested left to right and the first exception propagates. -/
def filterEmails (dom : String) : List Obj → Except String (List Obj)
  | [] => .ok []
  | r :: rs =>
      match emailPred dom r with
      | .error m => .error m
      | .ok b =>
          match filterEmails dom rs with
          | .error m => .error m
          | .ok rest => .ok (if b then r :: rest else rest)

/-- company_domain gating of extract.js: the filter applies only when the
environment variable is a truthy (non-empty) string. -/
def domainFilter (dom? : Option String) (data : List Obj) : Except String (List Obj) :=
  match dom? with
  | some d => if d = "" then .ok data else filterEmails d data
  | none => .ok data

structure ExtractEnv where
  basePath : String
  companyDomain : Option String
  maxEnrichment : Int
  detailFetch : JVal → Except String JVal
  shuffle : List JVal → List JVal
  analyticsFetch : String → Except String (List Obj)

structure PipelineCfg where
  dir : String
  idKey : String
  useEmailFilter : Bool

def memberCfg : PipelineCfg := ⟨"members", "user_id", true⟩

def channelCfg : PipelineCfg := ⟨"channels", "channel_id", false⟩

/-- The DayFile relative path, dir/date-dir.jsonl.gz. -/
def relPath (cfg : PipelineCfg) (date : String) : String :=
  cfg.dir ++ "/" ++ date ++ "-" ++ cfg.dir ++ ".jsonl.gz"

structure ExtractState where
  store : Store
  cache : Cache
  fetches : Nat
  writes : Nat
  calls : Nat

structure ExtractAcc where
  extracted : Nat
  skipped : Nat
  files : List String

/-- One iteration of the extract day loop: skip an existing DayFile recording
its resolved full path; otherwise fetch, drop the day on a thrown fetch error
or when no records remain after the entity filter, else enrich against the
shared cache and write the DayFile. -/
def extractDay (cfg : PipelineCfg) (env : ExtractEnv)
    (s : ExtractState × ExtractAcc) (date : String) : ExtractState × ExtractAcc :=
  let st := s.1
  let acc := s.2
  let fp := relPath cfg date
  if storeHas st.store fp then
    (st, { acc with skipped := acc.skipped + 1,
                    files := acc.files ++ [getFullPath env.basePath fp] })
  else
    let st1 := { st with fetches := st.fetches + 1 }
    match env.analyticsFetch date with
    | .error _ => (st1, acc)
    | .ok data =>
        if data.isEmpty then (st1, acc)
        else
          match (if cfg.useEmailFilter then domainFilter env.companyDomain data
                 else .ok data) with
          | .error _ => (st1, acc)
          | .ok filtered =>
              if filtered.isEmpty then (st1, acc)
              else
                let eo := enrichRecords cfg.idKey env.maxEnrichment env.detailFetch
                  env.shuffle filtered st1.cache
                ({ st1 with store := storeWrite st1.store fp eo.records,
                            cache := eo.cache,
                            writes := st1.writes + 1,
                            calls := st1.calls + eo.calls },
                 { acc with extracted := acc.extracted + 1,
                            files := acc.files ++ [getFullPath env.basePath fp] })

structure ExtractResult where
  extracted : Nat
  skipped : Nat
  files : List String

/-- Each extract call creates a fresh shared enrichment Map and fresh
counters over the given store. -/
def initialExtractState (store0 : Store) : ExtractState := ⟨store0, [], 0, 0, 0⟩

def extractAnalyticsCore (cfg : PipelineCfg) (env : ExtractEnv) (store0 : Store)
    (startDate endDate : String) : ExtractResult × ExtractState :=
  (⟨((dayRange startDate endDate).foldl (extractDay cfg env)
        (initialExtractState store0, ⟨0, 0, []⟩)).2.extracted,
    ((dayRange startDate endDate).foldl (extractDay cfg env)
        (initialExtractState store0, ⟨0, 0, []⟩)).2.skipped,
    ((dayRange startDate endDate).foldl (extractDay cfg env)
        (initialExtractState store0, ⟨0, 0, []⟩)).2.files⟩,
   ((dayRange startDate endDate).foldl (extractDay cfg env)
        (initialExtractState store0, ⟨0, 0, []⟩)).1)

def extractMemberAnalytics : ExtractEnv → Store → String → String →
    ExtractResult × ExtractState :=
  extractAnalyticsCore memberCfg

def extractChannelAnalytics : ExtractEnv → Store → String → String →
    ExtractResult × ExtractState :=
  extractAnalyticsCore channelCfg

/-- Branch analysis of one day-loop iteration: a day is skipped (DayFile
present), dropped (fetch error, no data, or nothing left after the filter),
or extracted (enrich and write). -/
theorem extractDay_characterize (cfg : PipelineCfg) (env : ExtractEnv)
    (st : ExtractState) (acc : ExtractAcc) (date : String) :
    (storeHas st.store (relPath cfg date) = true ∧
      extractDay cfg env (st, acc) date =
        (st, { acc with
                 skipped := acc.skipped + 1,
                 files := acc.files ++ [getFullPath env.basePath (relPath cfg date)] }))
    ∨ (storeHas st.store (relPath cfg date) = false ∧
        (extractDay cfg env (st, acc) date =
            ({ st with fetches := st.fetches + 1 }, acc)
         ∨ ∃ filtered : List Obj, filtered.isEmpty = false ∧
            extractDay cfg env (st, acc) date =
              ({ st with
                   fetches := st.fetches + 1,
                   store := storeWrite st.store (relPath cfg date)
                     (enrichRecords cfg.idKey env.maxEnrichment env.detailFetch
                       env.shuffle filtered st.cache).records,
                   cache := (enrichRecords cfg.idKey env.maxEnrichment env.detailFetch
                     env.shuffle filtered st.cache).cache,
                   writes := st.writes + 1,
                   calls := st.calls + (enrichRecords cfg.idKey env.maxEnrichment
                     env.detailFetch env.shuffle filtered st.cache).calls },
               { acc with
                   extracted := acc.extracted + 1,
                   files := acc.files ++ [getFullPath env.basePath (relPath cfg date)] }))) := by
  by_cases hs : storeHas st.store (relPath cfg date) = true
  · left
    exact ⟨hs, by rw [extractDay, if_pos hs]⟩
  · right
    refine ⟨Bool.eq_false_iff.mpr hs, ?_⟩
    rw [extractDay, if_neg hs]
    dsimp only
    cases hf : env.analyticsFetch date with
    | error m => left; rfl
    | ok data =>
        dsimp only
        by_cases hd : data.isEmpty = true
        · left; rw [if_pos hd]
        · rw [if_neg hd]
          cases hflt : (if cfg.useEmailFilter then domainFilter env.companyDomain data
              else .ok data) with
          | error m => left; rfl
          | ok filtered =>
              dsimp only
              by_cases hfe : filtered.isEmpty = true
              · left; rw [if_pos hfe]
              · right
                refine ⟨filtered, Bool.eq_false_iff.mpr hfe, ?_⟩
                rw [if_neg hfe]

/-- The files list of the running accumulator stays in step with
extracted + skipped through every day. -/
theorem extractDay_files_inv (cfg : PipelineCfg) (env : ExtractEnv)
    (st : ExtractState) (acc : ExtractAcc) (date : String)
    (h : acc.files.length = acc.extracted + acc.skipped) :
    (extractDay cfg env (st, acc) date).2.files.length =
      (extractDay cfg env (st, acc) date).2.extracted +
      (extractDay cfg env (st, acc) date).2.skipped := by
  rcases extractDay_characterize cfg env st acc date with ⟨_, he⟩ | ⟨_, he | ⟨f, _, he⟩⟩ <;>
    rw [he] <;> simp [h] <;> omega

theorem extract_foldl_files_inv (cfg : PipelineCfg) (env : ExtractEnv) :
    ∀ (days : List String) (s : ExtractState × ExtractAcc),
      s.2.files.length = s.2.extracted + s.2.skipped →
      (days.foldl (extractDay cfg env) s).2.files.length =
        (days.foldl (extractDay cfg env) s).2.extracted +
        (days.foldl (extractDay cfg env) s).2.skipped := by
  intro days
  induction days with
  | nil => intro s h; exact h
  | cons d rest ih =>
      intro s h
      rw [List.foldl_cons]
      exact ih (extractDay cfg env s d) (extractDay_files_inv cfg env s.1 s.2 d h)

/-- The enrichment-call counter coincides with the shared cache size and the
cache size respects the cap, through every day. -/
theorem extractDay_cap_inv (cfg : PipelineCfg) (env : ExtractEnv) (maxN : Nat)
    (henv : env.maxEnrichment = (maxN : Int))
    (hshuf : ∀ l, List.Perm (env.shuffle l) l)
    (st : ExtractState) (acc : ExtractAcc) (date : String)
    (h1 : st.calls = st.cache.length) (h2 : st.cache.length ≤ maxN) :
    (extractDay cfg env (st, acc) date).1.calls =
      (extractDay cfg env (st, acc) date).1.cache.length ∧
    (extractDay cfg env (st, acc) date).1.cache.length ≤ maxN := by
  rcases extractDay_characterize cfg env st acc date with ⟨_, he⟩ | ⟨_, he | ⟨f, _, he⟩⟩
  · rw [he]; exact ⟨h1, h2⟩
  · rw [he]; exact ⟨h1, h2⟩
  · rw [he]
    have hg := enrichRecords_growth cfg.idKey env.maxEnrichment env.detailFetch
      env.shuffle f st.cache hshuf
    have hcap : (enrichRecords cfg.idKey env.maxEnrichment env.detailFetch
        env.shuffle f st.cache).cache.length ≤ maxN := by
      rw [henv] at hg ⊢
      omega
    exact ⟨by rw [hg.1, h1], hcap⟩

theorem extract_foldl_cap_inv (cfg : PipelineCfg) (env : ExtractEnv) (maxN : Nat)
    (henv : env.maxEnrichment = (maxN : Int))
    (hshuf : ∀ l, List.Perm (env.shuffle l) l) :
    ∀ (days : List String) (s : ExtractState × ExtractAcc),
      s.1.calls = s.1.cache.length → s.1.cache.length ≤ maxN →
      (days.foldl (extractDay cfg env) s).1.calls =
        (days.foldl (extractDay cfg env) s).1.cache.length ∧
      (days.foldl (extractDay cfg env) s).1.cache.length ≤ maxN := by
  intro days
  induction days with
  | nil => intro s h1 h2; exact ⟨h1, h2⟩
  | cons d rest ih =>
      intro s h1 h2
      rw [List.foldl_cons]
      have hstep := extractDay_cap_inv cfg env maxN henv hshuf s.1 s.2 d h1 h2
      exact ih (extractDay cfg env s d) hstep.1 hstep.2

/-- DayFile presence is monotone along the day loop. -/
theorem extractDay_store_mono (cfg : PipelineCfg) (env : ExtractEnv)
    (st : ExtractState) (acc : ExtractAcc) (date : String) (p : String)
    (h : storeHas st.store p = true) :
    storeHas (extractDay cfg env (st, acc) date).1.store p = true := by
  rcases extractDay_characterize cfg env st acc date with ⟨_, he⟩ | ⟨_, he | ⟨f, _, he⟩⟩
  · rw [he]; exact h
  · rw [he]; exact h
  · rw [he]
    show storeHas (storeWrite st.store (relPath cfg date) _) p = true
    rw [storeHas_storeWrite, h]
    rfl

theorem extract_foldl_store_mono (cfg : PipelineCfg) (env : ExtractEnv) :
    ∀ (days : List String) (s : ExtractState × ExtractAcc) (p : String),
      storeHas s.1.store p = true →
      storeHas ((days.foldl (extractDay cfg env) s).1.store) p = true := by
  intro days
  induction days with
  | nil => intro s p h; exact h
  | cons d rest ih =>
      intro s p h
      rw [List.foldl_cons]
      exact ih (extractDay cfg env s d) p (extractDay_store_mono cfg env s.1 s.2 d p h)

theorem extractDay_sum_le (cfg : PipelineCfg) (env : ExtractEnv)
    (st : ExtractState) (acc : ExtractAcc) (date : String) :
    (extractDay cfg env (st, acc) date).2.extracted +
      (extractDay cfg env (st, acc) date).2.skipped ≤
      acc.extracted + acc.skipped + 1 := by
  rcases extractDay_characterize cfg env st acc date with ⟨_, he⟩ | ⟨_, he | ⟨f, _, he⟩⟩ <;>
    rw [he] <;> simp <;> omega

/-- A day that contributed to extracted + skipped left its DayFile present. -/
theorem extractDay_sum_eq_has (cfg : PipelineCfg) (env : ExtractEnv)
    (st : ExtractState) (acc : ExtractAcc) (date : String)
    (h : (extractDay cfg env (st, acc) date).2.extracted +
        (extractDay cfg env (st, acc) date).2.skipped =
        acc.extracted + acc.skipped + 1) :
    storeHas (extractDay cfg env (st, acc) date).1.store (relPath cfg date) = true := by
  rcases extractDay_characterize cfg env st acc date with ⟨hs, he⟩ | ⟨hs, he | ⟨f, hf, he⟩⟩
  · rw [he]; exact hs
  · rw [he] at h; simp at h
  · rw [he]
    show storeHas (storeWrite st.store (relPath cfg date) _) _ = true
    rw [storeHas_storeWrite]
    simp

theorem extract_foldl_sum_le (cfg : PipelineCfg) (env : ExtractEnv) :
    ∀ (days : List String) (s : ExtractState × ExtractAcc),
      (days.foldl (extractDay cfg env) s).2.extracted +
        (days.foldl (extractDay cfg env) s).2.skipped ≤
        s.2.extracted + s.2.skipped + days.length := by
  intro days
  induction days with
  | nil => intro s; simp
  | cons d rest ih =>
      intro s
      rw [List.foldl_cons]
      have h1 := extractDay_sum_le cfg env s.1 s.2 d
      rw [Prod.mk.eta] at h1
      have h2 := ih (extractDay cfg env s d)
      simp only [List.length_cons]
      omega

/-- When every day of the range contributed to extracted + skipped, every
DayFile of the range is present in the final store. -/
theorem extract_foldl_all_present (cfg : PipelineCfg) (env : ExtractEnv) :
    ∀ (days : List String) (s : ExtractState × ExtractAcc),
      (days.foldl (extractDay cfg env) s).2.extracted +
        (days.foldl (extractDay cfg env) s).2.skipped =
        s.2.extracted + s.2.skipped + days.length →
      ∀ d ∈ days,
        storeHas ((days.foldl (extractDay cfg env) s).1.store) (relPath cfg d) = true := by
  intro days
  induction days with
  | nil => intro s _ d hd; simp at hd
  | cons d rest ih =>
      intro s h e he
      rw [List.foldl_cons] at h ⊢
      have hle1 := extractDay_sum_le cfg env s.1 s.2 d
      rw [Prod.mk.eta] at hle1
      have hle2 := extract_foldl_sum_le cfg env rest (extractDay cfg env s d)
      simp only [List.length_cons] at h
      have hstep : (extractDay cfg env s d).2.extracted +
          (extractDay cfg env s d).2.skipped =
          s.2.extracted + s.2.skipped + 1 := by omega
      rcases List.mem_cons.mp he with rfl | he2
      · have hpres := extractDay_sum_eq_has cfg env s.1 s.2 e hstep
        exact extract_foldl_store_mono cfg env rest (extractDay cfg env s e)
          (relPath cfg e) hpres
      · exact ih (extractDay cfg env s d) (by omega) e he2

/-- When every DayFile of the range is already present, the day loop only
skips: the state (store, cache, fetch, write and call counters) is unchanged
and the accumulator collects one skip and one resolved full path per day. -/
theorem extract_skip_run (cfg : PipelineCfg) (env : ExtractEnv) :
    ∀ (days : List String) (s : ExtractState × ExtractAcc),
      (∀ d ∈ days, storeHas s.1.store (relPath cfg d) = true) →
      days.foldl (extractDay cfg env) s =
        (s.1, { s.2 with
                  skipped := s.2.skipped + days.length,
                  files := s.2.files ++
                    days.map (fun d => getFullPath env.basePath (relPath cfg d)) }) := by
  intro days
  induction days with
  | nil => intro s _; simp
  | cons d rest ih =>
      intro s h
      rw [List.foldl_cons]
      have hd : storeHas s.1.store (relPath cfg d) = true := h d (List.mem_cons_self _ _)
      have hstep : extractDay cfg env s d =
          (s.1, { s.2 with
                    skipped := s.2.skipped + 1,
                    files := s.2.files ++ [getFullPath env.basePath (relPath cfg d)] }) := by
        rcases extractDay_characterize cfg env s.1 s.2 d with ⟨_, he⟩ | ⟨hns, _⟩
        · exact he
        · rw [hd] at hns; cases hns
      rw [hstep]
      rw [ih (s.1, { s.2 with
              skipped := s.2.skipped + 1,
              files := s.2.files ++ [getFullPath env.basePath (relPath cfg d)] })
            (fun e he => h e (List.mem_cons_of_mem _ he))]
      simp only [Prod.mk.injEq, true_and, List.map_cons, List.length_cons]
      have hsk : s.2.skipped + 1 + rest.length = s.2.skipped + (rest.length + 1) := by
        omega
      rw [hsk, List.append_assoc, List.singleton_append]

/-
Per-day analytics fetch (src/services/slack.js, the fetchData closure inside
analytics).  The admin.analytics.getFile call is an oracle indexed by attempt
number so that the absence of any retry is expressible: the code makes
exactly one call per day, always at attempt 0.  In batch mode
(streamResult = false, the mode the extract stage uses) an unknown error is
rethrown; rate limits sleep 60 seconds and resolve with no records; the known
empty-data codes resolve with no records.
-/

inductive ApiOutcome where
  | ok (fileData : List Obj)
  | noFileData
  | apiError (code : String)

def knownErrors : List String :=
  ["data_not_available", "file_not_yet_available", "file_not_found"]

structure FetchOut where
  records : List Obj
  slept60 : Bool
  thrown : Option String
  apiCalls : Nat

def fetchData (api : String → Nat → ApiOutcome) (date : String) : FetchOut :=
  match api date 0 with
  | .ok fileData => ⟨fileData, false, none, 1⟩
  | .noFileData => ⟨[], false, some "Failed to get file data from Slack API", 1⟩
  | .apiError code =>
      if code = "ratelimited" then ⟨[], true, none, 1⟩
      else if knownErrors.contains code then ⟨[], false, none, 1⟩
      else ⟨[], false, some code, 1⟩

/-- The analytics(date, date, kind, false) call the extract stage makes for
one day, as an Except the extract day loop can catch. -/
def analyticsSingleDay (api : String → Nat → ApiOutcome) (date : String) :
    Except String (List Obj) :=
  match (fetchData api date).thrown with
  | some m => .error m
  | none => .ok (fetchData api date).records

/-
Load stage (src/jobs/load.js).  uploadBatch drives the mixpanel-import call
(an oracle indexed by attempt number) for maxRetries = 3 attempts; the
group-key validation throw sits inside the try block, before the import call.
The loaders run the events batch, short-circuit when it failed, then run the
profiles batch and the optional cleanup loop.
-/

structure BatchRes where
  success : Bool
  files : List String
  result : Option JVal
  error : Option String
  attempts : Nat
  mpCalls : List (List String)
  sleeps : List Nat

/-- The retry for-loop of uploadBatch, one list element per remaining attempt
number.  mpCalls records the file list passed to each destination-upload
invocation; sleeps records each backoff delay in milliseconds (taken between
consecutive failed attempts only). -/
def uploadLoop (grpMissing : Bool) (oracle : Nat → Except String JVal)
    (files : List String) :
    List Nat → Option String → List (List String) → List Nat → BatchRes
  | [], lastErr, calls, sleeps =>
      ⟨false, files, none, some (lastErr.getD "Unknown error"), 3, calls, sleeps⟩
  | a :: rest, _, calls, sleeps =>
      if grpMissing then
        uploadLoop grpMissing oracle files rest
          (some "Group key required for group imports") calls
          (if rest.isEmpty then sleeps else sleeps ++ [a * 2000])
      else
        match oracle a with
        | .ok r => ⟨true, files, some r, none, a, calls ++ [files], sleeps⟩
        | .error m =>
            uploadLoop grpMissing oracle files rest (some m) (calls ++ [files])
              (if rest.isEmpty then sleeps else sleeps ++ [a * 2000])

def uploadBatch (grpMissing : Bool) (oracle : Nat → Except String JVal)
    (files : List String) : BatchRes :=
  uploadLoop grpMissing oracle files [1, 2, 3] none [] []

structure LoadOut where
  uploaded : Nat
  failed : Nat
  eventsSuccess : Bool
  eventsError : Option String
  profilesSuccess : Bool
  profilesError : Option String
  profilesRan : Bool
  deleteCalls : Nat

/-- Shared embedding of loadMemberAnalytics and loadChannelAnalytics, which
differ only in the transform functions (inside the upload oracles here) and
in the group key of the profiles phase.  profilesRan records whether the
profiles uploadBatch was invoked at all; deleteCalls counts the
storage.deleteFile attempts of the cleanup loop. -/
def loadAnalyticsCore (profilesGrpMissing : Bool)
    (evOracle prOracle : Nat → Except String JVal)
    (cleanup : Bool) (files : List String) : LoadOut :=
  let ev := uploadBatch false evOracle files
  if !ev.success then
    ⟨0, files.length * 2, false, ev.error, false, none, false, 0⟩
  else
    let pr := uploadBatch profilesGrpMissing prOracle files
    ⟨(if ev.success then files.length else 0) + (if pr.success then files.length else 0),
      (if ev.success then 0 else files.length) + (if pr.success then 0 else files.length),
      ev.success, ev.error, pr.success, pr.error, true,
      if cleanup && ev.success && pr.success then files.length else 0⟩

def loadMemberAnalytics : (Nat → Except String JVal) → (Nat → Except String JVal) →
    Bool → List String → LoadOut :=
  loadAnalyticsCore false

/-- channel_group_key is read from the environment with default channel_id;
the group phase throws inside uploadBatch when it is falsy (empty). -/
def loadChannelAnalytics (channelGroupKey : String) :
    (Nat → Except String JVal) → (Nat → Except String JVal) →
    Bool → List String → LoadOut :=
  loadAnalyticsCore (channelGroupKey == "")

/-
Profile transforms (src/transforms/members.js and the channel transforms
file): transformMemberProfile and transformChannelProfile.  Coercion of a
value interpolated into a template literal is modelled for primitives; a
spread of a non-object contributes no string-keyed fields (enumerable
own-property semantics for the values that occur here).
-/

def jsTemplateStr : JVal → String
  | .str s => s
  | .num n => toString n
  | .bool b => cond b "true" "false"
  | .null => "null"
  | .undefined => "undefined"
  | .arr _ => ""
  | .obj _ => "[object Object]"

/-- Property access on a possibly-non-object value, as by optional chaining
and by access on primitives (undefined). -/
def jsGetIn (v : JVal) (k : String) : JVal :=
  match v with
  | .obj o => jsGet o k
  | _ => .undefined

/-- Object destructuring of one property with a default: throws on null and
undefined, takes the default when the property is undefined. -/
def jsDestructure (v : JVal) (k : String) (dflt : JVal) : Except String JVal :=
  match v with
  | .null => .error "TypeError: cannot destructure null"
  | .undefined => .error "TypeError: cannot destructure undefined"
  | .obj o =>
      .ok (match jsGet o k with
        | .undefined => dflt
        | w => w)
  | _ => .ok dflt

/-- String-keyed own fields contributed by a spread of the value. -/
def objFields : JVal → Obj
  | .obj o => o
  | _ => []

/-- Object-literal spread merge: keys of the second operand override in place
or append. -/
def objMerge (a b : Obj) : Obj := b.foldl (fun acc p => objSet acc p.1 p.2) a

/-- Lookup-table find by strict equality of the id field, as in
slackMembers.find of the member transforms and its channel analogue. -/
def findById (lookup : List Obj) (idv : JVal) : Option Obj :=
  lookup.find? (fun m => jsStrictEq (jsGet m "id") idv)

/-- Values deleted by the member-profile strip loop: Array.isArray or
typeof object (which includes null, arrays and plain objects). -/
def isComplexOrNull : JVal → Bool
  | .null => true
  | .arr _ => true
  | .obj _ => true
  | _ => false

structure MemberCtx where
  slackMembers : List Obj
  slackPrefix : String

structure ChannelCtx where
  slackChannels : List Obj
  slackPrefix : String
  channelGroupKey : String

/-- transformMemberProfile: skip on a falsy email, merge the ENRICHED user
and profile objects, add the lookup display fields, strip arrays, objects,
nulls and image_ keys, then build the $set payload with the fixed override
fields.  Destructuring ENRICHED when it is null throws. -/
def transformMemberProfile (ctx : MemberCtx) (record : Obj) :
    Except String (Option Obj) :=
  if !(truthy (jsGet record "email_address")) then .ok none
  else do
    let memberDetails := findById ctx.slackMembers (jsGet record "user_id")
    let enriched := match jsGet record "ENRICHED" with
      | .undefined => JVal.obj []
      | v => v
    let eu ← jsDestructure enriched "user" (.obj [])
    let ep ← jsDestructure enriched "profile" (.obj [])
    let fields0 := objMerge (objFields eu) (objFields ep)
    let fields1 := match memberDetails with
      | some md =>
          if truthy (jsGet md "profile") then
            objSet (objSet (objSet (objSet (objSet fields0
              "avatar" (jsGetIn (jsGet md "profile") "image_512"))
              "title" (jsGetIn (jsGet md "profile") "title"))
              "name" (jsGet md "real_name"))
              "display_name" (jsGetIn (jsGet md "profile") "display_name"))
              "timezone" (jsGet md "tz")
          else fields0
      | none => fields0
    let fields2 := fields1.filter (fun p =>
      !(isComplexOrNull p.2) && !(jsStartsWith p.1 "image_"))
    let link := ctx.slackPrefix ++ "/" ++ jsTemplateStr (jsGet record "user_id")
    let setObj := objMerge fields2
      [("slack_id", jsGet record "user_id"),
       ("$email", jsGet record "email_address"),
       ("slack_team_id", jsGet record "team_id"),
       ("#  → SLACK", .str link),
       ("is_active", jsGet record "is_active")]
    pure (some [("$distinct_id", jsGet record "user_id"), ("$set", .obj setObj)])

/-- dayjs.unix(created).format(YYYY-MM-DD) under a UTC process timezone. -/
def formatUnixDate : JVal → String
  | .num n => formatDate (serialToDate (n.fdiv 86400))
  | _ => "Invalid Date"

/-- dayjs.utc(record.date).add(4 h).add(20 m).unix(); 0 stands in for the NaN
of an unparseable date (never hit by the claims). -/
def unixPlus4h20 : JVal → Int
  | .str s =>
      match parseDate s with
      | some d => dateSerial d * 86400 + 15600
      | none => 0
  | _ => 0

/-- transformChannelProfile: spread the ENRICHED channel object, add the
lookup display fields when the channel is in the lookup table, and build the
group-profile payload.  The strip loop over enrichedFields has its delete
statements commented out in the source, so no value is removed before $set
is built. -/
def transformChannelProfile (ctx : ChannelCtx) (record : Obj) :
    Except String (Option Obj) := do
  let channelDetails := findById ctx.slackChannels (jsGet record "channel_id")
  let enriched := if truthy (jsGet record "ENRICHED") then jsGet record "ENRICHED"
    else JVal.obj []
  let ech ← jsDestructure enriched "channel" (.obj [])
  let fields0 := objFields ech
  let link := ctx.slackPrefix ++ "/" ++ jsTemplateStr (jsGet record "channel_id")
  let fields1 ← match channelDetails with
    | none => pure fields0
    | some cd => do
        let nameV := jsGet cd "name"
        let chName ← (match (if truthy nameV then nameV else .str "") with
          | .str s => Except.ok s
          | _ => Except.error "TypeError: channelName.startsWith is not a function")
        let f := objSet fields0 "$name"
          (.str (if jsStartsWith chName "#" then chName else "#" ++ chName))
        let f := objSet f "channel_name"
          (.str (if jsStartsWith chName "#" then String.mk (chName.data.drop 1) else chName))
        let f := objSet f "#  → SLACK" (.str link)
        let f := objSet f "$email" (.str link)
        let f := objSet f "created" (.str (formatUnixDate (jsGet cd "created")))
        let f := if truthy (jsGetIn (jsGet cd "purpose") "value") then
            objSet f "purpose" (jsGetIn (jsGet cd "purpose") "value")
          else f
        let f := if truthy (jsGetIn (jsGet cd "topic") "value") then
            objSet f "topic" (jsGetIn (jsGet cd "topic") "value")
          else f
        let f := if truthy (jsGet cd "is_ext_shared") then
            objSet f "external" (.bool true)
          else f
        let f := if truthy (jsGet cd "is_shared") then
            objSet f "external" (.bool true)
          else f
        let f := if truthy (jsGet cd "is_private") then
            objSet f "private" (.bool true)
          else f
        let f := if truthy (jsGet cd "num_members") then
            objSet f "members" (jsGet cd "num_members")
          else f
        pure f
  let setObj := objMerge fields1 [("date", .num (unixPlus4h20 (jsGet record "date")))]
  pure (some [("$group_key", .str ctx.channelGroupKey),
    ("$group_id", jsGet record "channel_id"),
    ("$set", .obj setObj)])

/-
Parameter validation (src/jobs/run-pipeline.js, parseParameters; the copy in
src/index.js performs the identical validation before its boolean
coercions).  Pure: performed before any network or storage call.
-/

/-- parseInt on a JS value: an integer number passes through; a string is
trimmed and its leading optional-sign digit prefix is taken; everything else
is NaN (modelled as none). -/
def parseIntStr (s : String) : Option Int :=
  let cs := s.data.dropWhile (fun c => c == ' ' || c == '\t' || c == '\n' || c == '\r')
  let core : List Char → Option Nat := fun l =>
    let ds := l.takeWhile Char.isDigit
    if ds.isEmpty then none
    else some (ds.foldl (fun a c => a * 10 + digitVal c) 0)
  match cs with
  | '-' :: rest => (core rest).map (fun n => -(n : Int))
  | '+' :: rest => (core rest).map (fun n => (n : Int))
  | _ => (core cs).map (fun n => (n : Int))

def jsParseInt : JVal → Option Int
  | .num n => some n
  | .str s => parseIntStr s
  | _ => none

/-- Test of the anchored date regex, with string coercion of the only
coercible shapes that can match (a plain string, or a one-string array). -/
def isDateFmt (s : String) : Bool :=
  match s.toList with
  | [a, b, c, d, '-', e, f, '-', g, h] =>
      a.isDigit && b.isDigit && c.isDigit && d.isDigit &&
        e.isDigit && f.isDigit && g.isDigit && h.isDigit
  | _ => false

def regexTestDate : JVal → Bool
  | .str s => isDateFmt s
  | .arr [.str s] => isDateFmt s
  | _ => false

def backfillTruthy (p : Obj) : Bool :=
  jsStrictEq (jsGet p "backfill") (.str "true") || jsStrictEq (jsGet p "backfill") (.bool true)

def hasDays (p : Obj) : Bool := !(jsStrictEq (jsGet p "days") .undefined)

def hasDateRange (p : Obj) : Bool :=
  !(jsStrictEq (jsGet p "start_date") .undefined) || !(jsStrictEq (jsGet p "end_date") .undefined)

/-- The days conversion block: parseInt the provided value, reject NaN and
values below 1, and write the number back into the parameters. -/
def daysCoerce (p : Obj) : Except String Obj :=
  if hasDays p then
    match jsParseInt (jsGet p "days") with
    | none => .error "Parameter \"days\" must be a positive integer"
    | some n =>
        if n < 1 then .error "Parameter \"days\" must be a positive integer"
        else .ok (objSet p "days" (.num n))
  else .ok p

/-- One truthy date field is valid when it matches the YYYY-MM-DD regex. -/
def dateFieldOk (p : Obj) (k : String) : Bool :=
  !(truthy (jsGet p k)) || regexTestDate (jsGet p k)

def parseParameters (params : Obj) : Except String Obj :=
  if backfillTruthy params then
    if hasDays params || hasDateRange params then
      .error "Parameter \"backfill\" is mutually exclusive with \"days\", \"start_date\", and \"end_date\""
    else .ok (objSet params "env" (.str "backfill"))
  else if hasDays params && hasDateRange params then
    .error "Parameters \"days\" and \"start_date/end_date\" are mutually exclusive. Use one or the other."
  else
    match daysCoerce params with
    | .error e => .error e
    | .ok p2 =>
        if truthy (jsGet p2 "start_date") && !(regexTestDate (jsGet p2 "start_date")) then
          .error "Parameter \"start_date\" must be in YYYY-MM-DD format"
        else if truthy (jsGet p2 "end_date") && !(regexTestDate (jsGet p2 "end_date")) then
          .error "Parameter \"end_date\" must be in YYYY-MM-DD format"
        else .ok p2

/-- Substring test used to state which validation error was raised. -/
def containsSubAux (pat : List Char) : List Char → Bool
  | [] => List.isPrefixOf pat []
  | c :: cs => List.isPrefixOf pat (c :: cs) || containsSubAux pat cs

def containsSub (s pat : String) : Bool := containsSubAux pat.data s.data

/-- The days conversion writes only the days key: every other key of the
returned parameter object reads as it did before the coercion. -/
theorem daysCoerce_ok_jsGet (q q2 : Obj) (k : String)
    (hk : (("days" : String) == k) = false) (h : daysCoerce q = .ok q2) :
    jsGet q2 k = jsGet q k := by
  by_cases hd : hasDays q = true
  · cases hp : jsParseInt (jsGet q "days") with
    | none => simp [daysCoerce, hd, hp] at h
    | some n =>
        by_cases hn : n < 1
        · simp [daysCoerce, hd, hp, hn] at h
        · simp [daysCoerce, hd, hp, hn] at h
          rw [← h]
          exact jsGet_objSet_ne q "days" (.num n) k hk
  · have hd2 : hasDays q = false := Bool.eq_false_iff.mpr hd
    simp [daysCoerce, hd2] at h
    rw [← h]

/-
Claim theorems.
-/

def c3Api : String → Nat → ApiOutcome := fun _ n =>
  if n == 0 then .apiError "ratelimited" else .ok [[("user_id", JVal.str "U1")]]

/-- C3, counterexample: with the one admin-analytics call of the day rate
limited, and an oracle whose second attempt would return one record, the
per-day fetch returns no records and makes exactly one API call after the 60
second sleep: the day is not retried within the loop and does not yield its
records, contrary to the claim. -/
theorem fetchData_ratelimit_no_retry_counterexample :
    (fetchData c3Api "2024-01-01").records = []
    ∧ (fetchData c3Api "2024-01-01").apiCalls = 1
    ∧ (fetchData c3Api "2024-01-01").slept60 = true
    ∧ (fetchData c3Api "2024-01-01").records ≠ [[("user_id", JVal.str "U1")]] := by
  refine ⟨rfl, rfl, rfl, ?_⟩
  intro h
  rw [show (fetchData c3Api "2024-01-01").records = [] from rfl] at h
  exact List.noConfusion h

/-- C3, amended: a rate-limited day performs the single 60 second backoff
sleep and then resolves with no records and no thrown error (it is not
counted as failed, and it is not retried - the loop continues with the other
days); the known empty-data error codes are swallowed and produce an empty
result for the day; a successful call yields its records; and exactly one
API call is made per day in every case. -/
theorem fetchData_backoff_then_continue (api : String → Nat → ApiOutcome)
    (date : String) (data : List Obj) (code : String) :
    (api date 0 = .apiError "ratelimited" →
      fetchData api date = ⟨[], true, none, 1⟩)
    ∧ (code ∈ knownErrors → api date 0 = .apiError code →
      fetchData api date = ⟨[], false, none, 1⟩)
    ∧ (api date 0 = .ok data → fetchData api date = ⟨data, false, none, 1⟩)
    ∧ (fetchData api date).apiCalls = 1 := by
  refine ⟨?_, ?_, ?_, ?_⟩
  · intro h
    simp [fetchData, h]
  · intro hmem h
    simp only [knownErrors, List.mem_cons, List.not_mem_nil, or_false] at hmem
    rcases hmem with rfl | rfl | rfl <;> simp [fetchData, h, knownErrors]
  · intro h
    simp [fetchData, h]
  · cases h : api date 0 with
    | ok d => simp [fetchData, h]
    | noFileData => simp [fetchData, h]
    | apiError c =>
        simp only [fetchData, h]
        by_cases h1 : c = "ratelimited"
        · simp [h1]
        · by_cases h2 : c ∈ knownErrors
          · simp [h1, h2]
          · simp [h1, h2]

def isPlainObj : JVal → Bool
  | .obj _ => true
  | _ => false

def c4Ctx : ChannelCtx := ⟨[], "https://example.slack.com/archives", "channel_id"⟩

def c4Record : Obj :=
  [("channel_id", JVal.str "C1"), ("date", JVal.str "2024-01-01"),
   ("ENRICHED", JVal.obj
     [("channel", JVal.obj
       [("id", JVal.str "C1"),
        ("topic", JVal.obj [("value", JVal.str "t")])]),
      ("ok", JVal.bool true)])]

/-- C4: the channel group-profile transform does not strip nested objects.
On a record whose ENRICHED channel detail carries an object-valued topic
field and whose channel is absent from the lookup table, the returned $set
holds that plain object unchanged, because the delete statements of the
strip loop are commented out in the source (the member transform, whose loop
is active, does strip).  This theorem evaluates the transform at the failing
input. -/
theorem transformChannelProfile_keeps_nested_object :
    (match transformChannelProfile c4Ctx c4Record with
      | .ok (some prof) =>
          match jsGet prof "$set" with
          | .obj fs => isPlainObj (jsGet fs "topic")
          | _ => false
      | _ => false) = true := rfl

/-- C5: when the events batch upload fails after exhausting its retries, the
member and channel loaders return uploaded = 0 and failed = 2 times the file
count, never invoke the profiles phase, and perform no cleanup deletion;
when the events batch succeeds, the profiles phase is always attempted. -/
theorem load_short_circuits_on_event_failure
    (evO prO : Nat → Except String JVal) (cleanup : Bool)
    (files : List String) (gk : String) :
    ((uploadBatch false evO files).success = false →
      loadMemberAnalytics evO prO cleanup files =
        ⟨0, files.length * 2, false, (uploadBatch false evO files).error,
          false, none, false, 0⟩
      ∧ loadChannelAnalytics gk evO prO cleanup files =
        ⟨0, files.length * 2, false, (uploadBatch false evO files).error,
          false, none, false, 0⟩)
    ∧ ((uploadBatch false evO files).success = true →
      (loadMemberAnalytics evO prO cleanup files).profilesRan = true
      ∧ (loadChannelAnalytics gk evO prO cleanup files).profilesRan = true) := by
  constructor
  · intro h
    constructor <;> simp [loadMemberAnalytics, loadChannelAnalytics, loadAnalyticsCore, h]
  · intro h
    constructor <;> simp [loadMemberAnalytics, loadChannelAnalytics, loadAnalyticsCore, h]

/-- C6: the batch uploader invokes the destination upload at most 3 times,
passing the full file list on every attempt; it returns success at the first
attempt that does not throw, carrying that attempt number; it sleeps
attempt times 2 seconds between consecutive failed attempts; and after the
third failure it returns success = false carrying the last error message.
The embedding is total: the loop catches every thrown error, so uploadBatch
never throws. -/
theorem uploadBatch_retry_discipline (o : Nat → Except String JVal)
    (files : List String) (r : JVal) (m1 m2 m3 : String) (g : Bool) :
    ((uploadBatch g o files).mpCalls.length ≤ 3
      ∧ ∀ c ∈ (uploadBatch g o files).mpCalls, c = files)
    ∧ (o 1 = .ok r →
        uploadBatch false o files = ⟨true, files, some r, none, 1, [files], []⟩)
    ∧ (o 1 = .error m1 → o 2 = .ok r →
        uploadBatch false o files =
          ⟨true, files, some r, none, 2, [files, files], [2000]⟩)
    ∧ (o 1 = .error m1 → o 2 = .error m2 → o 3 = .ok r →
        uploadBatch false o files =
          ⟨true, files, some r, none, 3, [files, files, files], [2000, 4000]⟩)
    ∧ (o 1 = .error m1 → o 2 = .error m2 → o 3 = .error m3 →
        uploadBatch false o files =
          ⟨false, files, none, some m3, 3, [files, files, files], [2000, 4000]⟩) := by
  refine ⟨?_, ?_, ?_, ?_, ?_⟩
  · cases g with
    | true => simp [uploadBatch, uploadLoop]
    | false =>
        cases h1 : o 1 with
        | ok r1 => simp [uploadBatch, uploadLoop, h1]
        | error e1 =>
            cases h2 : o 2 with
            | ok r2 => simp [uploadBatch, uploadLoop, h1, h2]
            | error e2 =>
                cases h3 : o 3 with
                | ok r3 => simp [uploadBatch, uploadLoop, h1, h2, h3]
                | error e3 => simp [uploadBatch, uploadLoop, h1, h2, h3]
  · intro h1
    simp [uploadBatch, uploadLoop, h1]
  · intro h1 h2
    simp [uploadBatch, uploadLoop, h1, h2]
  · intro h1 h2 h3
    simp [uploadBatch, uploadLoop, h1, h2, h3]
  · intro h1 h2 h3
    simp [uploadBatch, uploadLoop, h1, h2, h3]

/-- C8: conflicting or malformed run parameters are rejected with the
distinguishing messages, universally over all parameter objects - ANY
truthy backfill combined with any of days, start_date or end_date raises a
message containing mutually exclusive; ANY days value combined with any
date raises one likewise; ANY days value that parses below 1 or does not
parse at all raises one containing positive integer; ANY truthy start_date
or end_date failing the YYYY-MM-DD regex raises one containing YYYY-MM-DD.
The claim instances (days with start_date, backfill with days, with
start_date, and with end_date, days of abc and of 0, start_date and
end_date of 2024-1-1) are then evaluated concretely, and a conflict-free
parameter set passes through unchanged except that days is coerced to a
number.  parseParameters is pure, so validation happens before any network
or storage call. -/
theorem parseParameters_validation (params p2 : Obj)
    (hnb : backfillTruthy params = false)
    (hnx : (hasDays params && hasDateRange params) = false)
    (hdc : daysCoerce params = .ok p2)
    (hsd : dateFieldOk p2 "start_date" = true)
    (hed : dateFieldOk p2 "end_date" = true) :
    (∀ q : Obj, backfillTruthy q = true → (hasDays q || hasDateRange q) = true →
      ∃ m, parseParameters q = .error m ∧ containsSub m "mutually exclusive" = true)
    ∧ (∀ q : Obj, backfillTruthy q = false → (hasDays q && hasDateRange q) = true →
      ∃ m, parseParameters q = .error m ∧ containsSub m "mutually exclusive" = true)
    ∧ (∀ q : Obj, backfillTruthy q = false → (hasDays q && hasDateRange q) = false →
        hasDays q = true →
        (jsParseInt (jsGet q "days") = none
          ∨ ∃ n : Int, jsParseInt (jsGet q "days") = some n ∧ n < 1) →
      ∃ m, parseParameters q = .error m ∧ containsSub m "positive integer" = true)
    ∧ (∀ q q2x : Obj, backfillTruthy q = false → (hasDays q && hasDateRange q) = false →
        daysCoerce q = .ok q2x →
        ((truthy (jsGet q "start_date") = true ∧ regexTestDate (jsGet q "start_date") = false)
          ∨ (truthy (jsGet q "end_date") = true ∧ regexTestDate (jsGet q "end_date") = false)) →
      ∃ m, parseParameters q = .error m ∧ containsSub m "YYYY-MM-DD" = true)
    ∧ (match parseParameters [("days", .num 7), ("start_date", .str "2024-01-01")] with
      | .error m => containsSub m "mutually exclusive"
      | _ => false) = true
    ∧ (match parseParameters [("backfill", .bool true), ("days", .num 7)] with
      | .error m => containsSub m "mutually exclusive"
      | _ => false) = true
    ∧ (match parseParameters [("backfill", .bool true), ("start_date", .str "2024-01-01")] with
      | .error m => containsSub m "mutually exclusive"
      | _ => false) = true
    ∧ (match parseParameters [("backfill", .str "true"), ("end_date", .str "2024-01-01")] with
      | .error m => containsSub m "mutually exclusive"
      | _ => false) = true
    ∧ (match parseParameters [("days", .str "abc")] with
      | .error m => containsSub m "positive integer"
      | _ => false) = true
    ∧ (match parseParameters [("days", .num 0)] with
      | .error m => containsSub m "positive integer"
      | _ => false) = true
    ∧ (match parseParameters [("start_date", .str "2024-1-1")] with
      | .error m => containsSub m "YYYY-MM-DD"
      | _ => false) = true
    ∧ (match parseParameters [("end_date", .str "2024-1-1")] with
      | .error m => containsSub m "YYYY-MM-DD"
      | _ => false) = true
    ∧ parseParameters params = .ok p2 := by
  refine ⟨?_, ?_, ?_, ?_, rfl, rfl, rfl, rfl, rfl, rfl, rfl, rfl, ?_⟩
  · intro q hb hdr
    refine ⟨"Parameter \"backfill\" is mutually exclusive with \"days\", \"start_date\", and \"end_date\"",
      ?_, rfl⟩
    simp [parseParameters, hb, hdr]
  · intro q hnb2 hx
    refine ⟨"Parameters \"days\" and \"start_date/end_date\" are mutually exclusive. Use one or the other.",
      ?_, rfl⟩
    simp [parseParameters, hnb2, hx]
  · intro q hnb2 hnx2 hd hbad
    refine ⟨"Parameter \"days\" must be a positive integer", ?_, rfl⟩
    have hdc2 : daysCoerce q = .error "Parameter \"days\" must be a positive integer" := by
      rcases hbad with hnone | ⟨n, hn, hnlt⟩
      · simp [daysCoerce, hd, hnone]
      · simp [daysCoerce, hd, hn, hnlt]
    simp [parseParameters, hnb2, hnx2, hdc2]
  · intro q q2x hnb2 hnx2 hdc2 hbad
    have hsget : jsGet q2x "start_date" = jsGet q "start_date" :=
      daysCoerce_ok_jsGet q q2x "start_date" (by decide) hdc2
    have heget : jsGet q2x "end_date" = jsGet q "end_date" :=
      daysCoerce_ok_jsGet q q2x "end_date" (by decide) hdc2
    by_cases hc1 : (truthy (jsGet q2x "start_date") && !(regexTestDate (jsGet q2x "start_date"))) = true
    · refine ⟨"Parameter \"start_date\" must be in YYYY-MM-DD format", ?_, rfl⟩
      simp [parseParameters, hnb2, hnx2, hdc2, hc1]
    · have hc1f : (truthy (jsGet q2x "start_date") && !(regexTestDate (jsGet q2x "start_date"))) = false :=
        Bool.eq_false_iff.mpr hc1
      have hend : truthy (jsGet q "end_date") = true ∧ regexTestDate (jsGet q "end_date") = false := by
        rcases hbad with ⟨h1, h2⟩ | hB
        · exact absurd (by rw [hsget, h1, h2]; rfl) hc1
        · exact hB
      have hc2 : (truthy (jsGet q2x "end_date") && !(regexTestDate (jsGet q2x "end_date"))) = true := by
        rw [heget, hend.1, hend.2]
        rfl
      refine ⟨"Parameter \"end_date\" must be in YYYY-MM-DD format", ?_, rfl⟩
      simp [parseParameters, hnb2, hnx2, hdc2, hc1f, hc2]
  have hs : (truthy (jsGet p2 "start_date") && !(regexTestDate (jsGet p2 "start_date"))) = false := by
    rcases Bool.eq_false_or_eq_true (truthy (jsGet p2 "start_date")) with htr | htr
    · unfold dateFieldOk at hsd
      rw [htr] at hsd
      simp only [Bool.not_true, Bool.false_or] at hsd
      simp [htr, hsd]
    · simp [htr]
  have he : (truthy (jsGet p2 "end_date") && !(regexTestDate (jsGet p2 "end_date"))) = false := by
    rcases Bool.eq_false_or_eq_true (truthy (jsGet p2 "end_date")) with htr | htr
    · unfold dateFieldOk at hed
      rw [htr] at hed
      simp only [Bool.not_true, Bool.false_or] at hed
      simp [htr, hed]
    · simp [htr]
  simp only [parseParameters, hnb, hnx, hdc, hs, he, Bool.false_eq_true, if_false]

def c8Params : Obj := [("days", JVal.str "7"), ("cleanup", JVal.str "true")]

def c8Coerced : Obj := [("days", JVal.num 7), ("cleanup", JVal.str "true")]

theorem parseParameters_validation_witness :
    backfillTruthy c8Params = false
    ∧ (hasDays c8Params && hasDateRange c8Params) = false
    ∧ daysCoerce c8Params = .ok c8Coerced
    ∧ dateFieldOk c8Coerced "start_date" = true
    ∧ dateFieldOk c8Coerced "end_date" = true
    ∧ parseParameters c8Params = .ok c8Coerced :=
  ⟨rfl, rfl, rfl, rfl, rfl,
    (parseParameters_validation c8Params c8Coerced rfl rfl rfl rfl
      rfl).2.2.2.2.2.2.2.2.2.2.2.2⟩

/-- C9: a failed detail lookup permanently consumes enrichment budget.  A
thrown lookup stores the error sentinel object in the shared cache under the
id; storing under a fresh id grows the cache size, which the cap check
compares against MAX_ENRICHMENT; an id already in the cache - sentinel
included - is never selected again within the run; and a call's selection is
bounded by MAX_ENRICHMENT minus the current cache size, sentinel entries
included in that size. -/
theorem enrich_error_sentinel_consumes_budget
    (maxE : Int) (idKey : String) (fetch : JVal → Except String JVal)
    (shuffle : List JVal → List JVal) (records : List Obj) (cache : Cache)
    (uid : JVal) (m : String) (n : Nat)
    (hshuf : ∀ l, List.Perm (shuffle l) l) :
    (fetch uid = .error m →
      enrichStep fetch (cache, n) uid =
        (cacheSet cache uid (.obj [("error", .str m)]), n + 1))
    ∧ (cacheHas cache uid = false →
        (cacheSet cache uid (.obj [("error", .str m)])).length = cache.length + 1)
    ∧ (cacheHas cache uid = true →
        uid ∉ enrichSelection maxE shuffle idKey cache records)
    ∧ (enrichSelection maxE shuffle idKey cache records).length ≤
        (maxE - (cache.length : Int)).toNat := by
  refine ⟨?_, ?_, ?_, enrichSelection_length maxE shuffle idKey cache records⟩
  · intro h
    simp [enrichStep, h]
  · intro h
    exact length_cacheSet_of_not_has _ h
  · intro h hmem
    have h2 := enrichSelection_mem maxE shuffle idKey cache records hshuf uid hmem
    rw [h] at h2
    exact Bool.noConfusion h2

theorem enrich_error_sentinel_consumes_budget_witness :
    (∀ l : List JVal, List.Perm ((fun l : List JVal => l) l) l)
    ∧ (((fun _ : JVal => (Except.error "boom" : Except String JVal)) (JVal.str "U0")
          = .error "boom" →
        enrichStep (fun _ => .error "boom")
          ([((JVal.str "U1"), JVal.obj [("error", JVal.str "x")])], 0) (JVal.str "U0") =
          (cacheSet [((JVal.str "U1"), JVal.obj [("error", JVal.str "x")])] (JVal.str "U0")
            (.obj [("error", .str "boom")]), 0 + 1))
      ∧ (cacheHas [((JVal.str "U1"), JVal.obj [("error", JVal.str "x")])] (JVal.str "U0") = false →
          (cacheSet [((JVal.str "U1"), JVal.obj [("error", JVal.str "x")])] (JVal.str "U0")
            (.obj [("error", .str "boom")])).length =
            [((JVal.str "U1"), JVal.obj [("error", JVal.str "x")])].length + 1)
      ∧ (cacheHas [((JVal.str "U1"), JVal.obj [("error", JVal.str "x")])] (JVal.str "U0") = true →
          JVal.str "U0" ∉ enrichSelection 5 (fun l => l) "user_id"
            [((JVal.str "U1"), JVal.obj [("error", JVal.str "x")])]
            [[("user_id", JVal.str "U0")]])
      ∧ (enrichSelection 5 (fun l => l) "user_id"
          [((JVal.str "U1"), JVal.obj [("error", JVal.str "x")])]
          [[("user_id", JVal.str "U0")]]).length ≤
          ((5 : Int) - (([((JVal.str "U1"), JVal.obj [("error", JVal.str "x")])] : Cache).length : Int)).toNat) :=
  ⟨fun l => List.Perm.refl l,
    enrich_error_sentinel_consumes_budget 5 "user_id" (fun _ => .error "boom")
      (fun l => l) [[("user_id", JVal.str "U0")]]
      [((JVal.str "U1"), JVal.obj [("error", JVal.str "x")])]
      (JVal.str "U0") "boom" 0 (fun l => List.Perm.refl l)⟩

/-- The retention predicate the member filter computes on a record whose
email field is a string (or falsy): a truthy string email that ends with
at-domain. -/
def emailKeep (d : String) (r : Obj) : Bool :=
  match jsGet r "email_address" with
  | .str s => truthy (.str s) && jsEndsWith s ("@" ++ d)
  | _ => false

theorem emailPred_eq (d : String) (r : Obj)
    (h : (∃ s, jsGet r "email_address" = .str s) ∨
      truthy (jsGet r "email_address") = false) :
    emailPred d r = .ok (emailKeep d r) := by
  rcases h with ⟨s, hs⟩ | hf
  · rcases Bool.eq_false_or_eq_true (truthy (.str s)) with ht | ht <;>
      simp [emailPred, emailKeep, hs, ht]
  · cases hv : jsGet r "email_address" <;>
      rw [hv] at hf <;>
      simp [emailPred, emailKeep, hv, hf]

theorem filterEmails_ok (d : String) : ∀ data : List Obj,
    (∀ r ∈ data, (∃ s, jsGet r "email_address" = .str s) ∨
      truthy (jsGet r "email_address") = false) →
    filterEmails d data = .ok (data.filter (emailKeep d)) := by
  intro data
  induction data with
  | nil => intro _; rfl
  | cons r rs ih =>
      intro h
      rw [filterEmails,
        emailPred_eq d r (h r (List.mem_cons_self _ _)),
        ih (fun r2 hr2 => h r2 (List.mem_cons_of_mem _ hr2))]
      rcases Bool.eq_false_or_eq_true (emailKeep d r) with hk | hk <;>
        simp [List.filter_cons, hk]

theorem domainFilter_some_eq (d : String) (data : List Obj) (hd : d ≠ "")
    (hemails : ∀ r ∈ data, (∃ s, jsGet r "email_address" = .str s) ∨
      truthy (jsGet r "email_address") = false) :
    domainFilter (some d) data = .ok (data.filter (emailKeep d)) := by
  rw [domainFilter, if_neg hd]
  exact filterEmails_ok d data hemails

/-- C7: with a configured company domain, the member extract filter keeps a
record exactly when its email_address is a string ending with the at-domain
suffix (case-sensitive, independent of every other field), and the day then
enriches and writes exactly the retained records. -/
theorem member_domain_filter_correct (d : String) (data : List Obj) (r : Obj)
    (env : ExtractEnv) (st : ExtractState) (acc : ExtractAcc) (date : String)
    (hd : d ≠ "")
    (hemails : ∀ r2 ∈ data, (∃ s, jsGet r2 "email_address" = .str s) ∨
      truthy (jsGet r2 "email_address") = false) :
    domainFilter (some d) data = .ok (data.filter (emailKeep d))
    ∧ (emailKeep d r = true ↔
        ∃ s, jsGet r "email_address" = .str s ∧ jsEndsWith s ("@" ++ d) = true)
    ∧ (storeHas st.store (relPath memberCfg date) = false →
        env.companyDomain = some d →
        env.analyticsFetch date = .ok data →
        data.isEmpty = false →
        (data.filter (emailKeep d)).isEmpty = false →
        storeGet (extractDay memberCfg env (st, acc) date).1.store
            (relPath memberCfg date)
          = some (enrichRecords "user_id" env.maxEnrichment env.detailFetch
              env.shuffle (data.filter (emailKeep d)) st.cache).records
        ∧ (extractDay memberCfg env (st, acc) date).2.extracted = acc.extracted + 1) := by
  refine ⟨domainFilter_some_eq d data hd hemails, ?_, ?_⟩
  · constructor
    · intro h
      cases hv : jsGet r "email_address" with
      | str s =>
          have h2 : (truthy (.str s) && jsEndsWith s ("@" ++ d)) = true := by
            simpa only [emailKeep, hv] using h
          rw [Bool.and_eq_true] at h2
          exact ⟨s, rfl, h2.2⟩
      | undefined => simp [emailKeep, hv] at h
      | null => simp [emailKeep, hv] at h
      | bool b => simp [emailKeep, hv] at h
      | num n => simp [emailKeep, hv] at h
      | arr l => simp [emailKeep, hv] at h
      | obj o => simp [emailKeep, hv] at h
    · rintro ⟨s, hs, hends⟩
      have hsne : s ≠ "" := by
        intro hse
        subst hse
        rw [jsEndsWith, List.isSuffixOf_iff_suffix] at hends
        have h0 : ("@" ++ d).data = [] := List.suffix_nil.mp hends
        rw [String.data_append] at h0
        exact List.noConfusion h0
      simp [emailKeep, hs, truthy, hsne, hends]
  · intro hnot hdom hfetch hne hfne
    rw [extractDay, if_neg (by simp [hnot])]
    dsimp only
    rw [hfetch]
    dsimp only
    rw [if_neg (by simp [hne])]
    have hcfg : (if memberCfg.useEmailFilter then domainFilter env.companyDomain data
        else .ok data) = domainFilter env.companyDomain data := rfl
    rw [hcfg, hdom, domainFilter_some_eq d data hd hemails]
    dsimp only
    rw [if_neg (by simp [hfne])]
    exact ⟨storeGet_storeWrite_same _ _ _, rfl⟩

def c7Data : List Obj :=
  [[("email_address", JVal.str "a@example.com"), ("user_id", JVal.str "U1")],
   [("email_address", JVal.str "a@other.com"), ("user_id", JVal.str "U2")]]

theorem member_domain_filter_correct_witness :
    ("example.com" ≠ "")
    ∧ (∀ r2 ∈ c7Data, (∃ s, jsGet r2 "email_address" = JVal.str s) ∨
        truthy (jsGet r2 "email_address") = false)
    ∧ domainFilter (some "example.com") c7Data =
        .ok (c7Data.filter (emailKeep "example.com"))
    ∧ c7Data.filter (emailKeep "example.com") =
        [[("email_address", JVal.str "a@example.com"), ("user_id", JVal.str "U1")]] := by
  have hd : ("example.com" : String) ≠ "" := by decide
  have hemails : ∀ r2 ∈ c7Data, (∃ s, jsGet r2 "email_address" = JVal.str s) ∨
      truthy (jsGet r2 "email_address") = false := by
    intro r2 hr2
    simp only [c7Data, List.mem_cons, List.not_mem_nil, or_false] at hr2
    rcases hr2 with rfl | rfl
    · exact Or.inl ⟨"a@example.com", rfl⟩
    · exact Or.inl ⟨"a@other.com", rfl⟩
  exact ⟨hd, hemails,
    (member_domain_filter_correct "example.com" c7Data
      [("email_address", JVal.str "a@example.com"), ("user_id", JVal.str "U1")]
      ⟨"tmp", some "example.com", 10, fun _ => .ok (.obj []), fun l => l,
        fun _ => .ok c7Data⟩
      ⟨⟨[]⟩, [], 0, 0, 0⟩ ⟨0, 0, []⟩ "2024-01-01" hd hemails).1,
    rfl⟩

/-- C1: with the shared enrichment cache starting empty, one extract call
makes at most MAX_ENRICHMENT detail-lookup calls across the whole date range
(conjunct 1); one enrich call makes at most MAX_ENRICHMENT minus the current
cache size calls (conjunct 2); every record of an enrich result carries an
ENRICHED value that is the cached detail object or null (conjunct 3); and a
cap of zero selects nothing and makes no calls (conjunct 4).  Conjuncts 2-4
are stated for an arbitrary id key, covering the user and channel variants,
and hold for every cap including one smaller than the unique-id count; the
embedding is total, so no cap value raises an error. -/
theorem extract_enrichment_cap (maxN : Nat) (env : ExtractEnv) (store0 : Store)
    (d1 d2 : String) (idKey : String) (cache : Cache) (records : List Obj)
    (henv : env.maxEnrichment = (maxN : Int))
    (hshuf : ∀ l, List.Perm (env.shuffle l) l) :
    (extractMemberAnalytics env store0 d1 d2).2.calls ≤ maxN
    ∧ (enrichRecords idKey env.maxEnrichment env.detailFetch env.shuffle records cache).calls
        ≤ (env.maxEnrichment - (cache.length : Int)).toNat
    ∧ (∀ r ∈ (enrichRecords idKey env.maxEnrichment env.detailFetch
          env.shuffle records cache).records,
        ∃ v, jsGet r "ENRICHED" = v ∧
          (v = .null ∨ ∃ uid, cacheGet (enrichRecords idKey env.maxEnrichment
            env.detailFetch env.shuffle records cache).cache uid = some v))
    ∧ (enrichRecords idKey 0 env.detailFetch env.shuffle records cache).calls = 0 := by
  refine ⟨?_,
    (enrichRecords_growth idKey env.maxEnrichment env.detailFetch env.shuffle
      records cache hshuf).2,
    enrichRecords_attached idKey env.maxEnrichment env.detailFetch env.shuffle
      records cache,
    enrichRecords_zero_cap idKey env.detailFetch env.shuffle records cache⟩
  have hinv := extract_foldl_cap_inv memberCfg env maxN henv hshuf (dayRange d1 d2)
    (initialExtractState store0, ⟨0, 0, []⟩) rfl (Nat.zero_le _)
  show ((dayRange d1 d2).foldl (extractDay memberCfg env)
    (initialExtractState store0, ⟨0, 0, []⟩)).1.calls ≤ maxN
  omega

def c1Env : ExtractEnv :=
  ⟨"tmp", none, 2, fun _ => .ok (.obj [("ok", .bool true)]), fun l => l,
    fun _ => .ok [[("user_id", .str "U1"), ("email_address", .str "a@x.co")]]⟩

theorem extract_enrichment_cap_witness :
    c1Env.maxEnrichment = ((2 : Nat) : Int)
    ∧ (∀ l, List.Perm (c1Env.shuffle l) l)
    ∧ (extractMemberAnalytics c1Env ⟨[]⟩ "2024-01-01" "2024-01-02").2.calls ≤ 2 :=
  ⟨rfl, fun l => List.Perm.refl l,
    (extract_enrichment_cap 2 c1Env ⟨[]⟩ "2024-01-01" "2024-01-02" "user_id" []
      [[("user_id", JVal.str "U1")]] rfl (fun l => List.Perm.refl l)).1⟩

/-- C10: every extract call returns a files array of length extracted plus
skipped, for both the member and the channel pipeline (conjuncts 1 and 2); a
day whose fetch throws, whose fetch returns zero records, or whose records
are all filtered out contributes to neither counter and adds no path
(conjuncts 3-5); and extracted plus skipped can be strictly below the number
of days in the range, as the concrete one-day empty-fetch run of conjunct 6
shows. -/
theorem extract_files_accounting (env : ExtractEnv) (store0 : Store)
    (d1 d2 : String) (st : ExtractState) (acc : ExtractAcc) (date : String)
    (m : String) (data : List Obj) :
    ((extractMemberAnalytics env store0 d1 d2).1.files.length =
      (extractMemberAnalytics env store0 d1 d2).1.extracted +
      (extractMemberAnalytics env store0 d1 d2).1.skipped)
    ∧ ((extractChannelAnalytics env store0 d1 d2).1.files.length =
      (extractChannelAnalytics env store0 d1 d2).1.extracted +
      (extractChannelAnalytics env store0 d1 d2).1.skipped)
    ∧ (∀ cfg : PipelineCfg, storeHas st.store (relPath cfg date) = false →
        env.analyticsFetch date = .error m →
        (extractDay cfg env (st, acc) date).2 = acc)
    ∧ (∀ cfg : PipelineCfg, storeHas st.store (relPath cfg date) = false →
        env.analyticsFetch date = .ok [] →
        (extractDay cfg env (st, acc) date).2 = acc)
    ∧ (storeHas st.store (relPath memberCfg date) = false →
        env.analyticsFetch date = .ok data →
        data.isEmpty = false →
        domainFilter env.companyDomain data = .ok [] →
        (extractDay memberCfg env (st, acc) date).2 = acc)
    ∧ ((extractMemberAnalytics
          ⟨"tmp", none, 10, fun _ => .ok (.obj []), fun l => l, fun _ => .ok []⟩
          ⟨[]⟩ "2024-01-01" "2024-01-01").1.extracted +
        (extractMemberAnalytics
          ⟨"tmp", none, 10, fun _ => .ok (.obj []), fun l => l, fun _ => .ok []⟩
          ⟨[]⟩ "2024-01-01" "2024-01-01").1.skipped = 0
        ∧ (dayRange "2024-01-01" "2024-01-01").length = 1) := by
  refine ⟨?_, ?_, ?_, ?_, ?_, rfl, rfl⟩
  · exact extract_foldl_files_inv memberCfg env (dayRange d1 d2)
      (initialExtractState store0, ⟨0, 0, []⟩) rfl
  · exact extract_foldl_files_inv channelCfg env (dayRange d1 d2)
      (initialExtractState store0, ⟨0, 0, []⟩) rfl
  · intro cfg hs hf
    rw [extractDay, if_neg (by simp [hs])]
    dsimp only
    rw [hf]
  · intro cfg hs hf
    rw [extractDay, if_neg (by simp [hs])]
    dsimp only
    rw [hf]
    rfl
  · intro hs hf hne hflt
    rw [extractDay, if_neg (by simp [hs])]
    dsimp only
    rw [hf]
    dsimp only
    rw [if_neg (by simp [hne])]
    have hcfg : (if memberCfg.useEmailFilter then domainFilter env.companyDomain data
        else .ok data) = domainFilter env.companyDomain data := rfl
    rw [hcfg, hflt]
    rfl

/-- C2: immediately after a first extract call over the range in which every
day contributed a DayFile (extracted plus skipped covers the whole range), a
second call over the same range returns extracted = 0 and skipped = the
number of days d2 - d1 + 1, performs no analytics fetch and no write, leaves
the store unchanged (no DayFile overwritten), and returns exactly the
resolved full path of each existing DayFile. -/
theorem extract_idempotent_second_run (env : ExtractEnv) (store0 : Store)
    (d1 d2 : String) (a b : YMD)
    (hp1 : parseDate d1 = some a) (hp2 : parseDate d2 = some b)
    (hle : dateSerial a ≤ dateSerial b)
    (hcomplete : (extractMemberAnalytics env store0 d1 d2).1.extracted +
        (extractMemberAnalytics env store0 d1 d2).1.skipped = (dayRange d1 d2).length) :
    (extractMemberAnalytics env
        (extractMemberAnalytics env store0 d1 d2).2.store d1 d2).1.extracted = 0
    ∧ (extractMemberAnalytics env
        (extractMemberAnalytics env store0 d1 d2).2.store d1 d2).1.skipped =
        (dateSerial b - dateSerial a).toNat + 1
    ∧ (extractMemberAnalytics env
        (extractMemberAnalytics env store0 d1 d2).2.store d1 d2).2.fetches = 0
    ∧ (extractMemberAnalytics env
        (extractMemberAnalytics env store0 d1 d2).2.store d1 d2).2.writes = 0
    ∧ (extractMemberAnalytics env
        (extractMemberAnalytics env store0 d1 d2).2.store d1 d2).2.store =
        (extractMemberAnalytics env store0 d1 d2).2.store
    ∧ (extractMemberAnalytics env
        (extractMemberAnalytics env store0 d1 d2).2.store d1 d2).1.files =
        (dayRange d1 d2).map (fun date => getFullPath env.basePath (relPath memberCfg date)) := by
  have h0 : ((dayRange d1 d2).foldl (extractDay memberCfg env)
      (initialExtractState store0, ⟨0, 0, []⟩)).2.extracted +
      ((dayRange d1 d2).foldl (extractDay memberCfg env)
      (initialExtractState store0, ⟨0, 0, []⟩)).2.skipped = (dayRange d1 d2).length :=
    hcomplete
  have hc2 : ((dayRange d1 d2).foldl (extractDay memberCfg env)
      (initialExtractState store0, ⟨0, 0, []⟩)).2.extracted +
      ((dayRange d1 d2).foldl (extractDay memberCfg env)
      (initialExtractState store0, ⟨0, 0, []⟩)).2.skipped =
      0 + 0 + (dayRange d1 d2).length := by omega
  have hall := extract_foldl_all_present memberCfg env (dayRange d1 d2)
    (initialExtractState store0, ⟨0, 0, []⟩) hc2
  have hskip := extract_skip_run memberCfg env (dayRange d1 d2)
    (initialExtractState (((dayRange d1 d2).foldl (extractDay memberCfg env)
      (initialExtractState store0, ⟨0, 0, []⟩)).1.store), ⟨0, 0, []⟩)
    (fun d hd => hall d hd)
  refine ⟨?_, ?_, ?_, ?_, ?_, ?_⟩
  · show ((dayRange d1 d2).foldl (extractDay memberCfg env)
      (initialExtractState (((dayRange d1 d2).foldl (extractDay memberCfg env)
        (initialExtractState store0, ⟨0, 0, []⟩)).1.store), ⟨0, 0, []⟩)).2.extracted = 0
    rw [hskip]
  · show ((dayRange d1 d2).foldl (extractDay memberCfg env)
      (initialExtractState (((dayRange d1 d2).foldl (extractDay memberCfg env)
        (initialExtractState store0, ⟨0, 0, []⟩)).1.store), ⟨0, 0, []⟩)).2.skipped =
      (dateSerial b - dateSerial a).toNat + 1
    rw [hskip]
    show 0 + (dayRange d1 d2).length = (dateSerial b - dateSerial a).toNat + 1
    rw [dayRange_length hp1 hp2 hle]
    omega
  · show ((dayRange d1 d2).foldl (extractDay memberCfg env)
      (initialExtractState (((dayRange d1 d2).foldl (extractDay memberCfg env)
        (initialExtractState store0, ⟨0, 0, []⟩)).1.store), ⟨0, 0, []⟩)).1.fetches = 0
    rw [hskip]
    rfl
  · show ((dayRange d1 d2).foldl (extractDay memberCfg env)
      (initialExtractState (((dayRange d1 d2).foldl (extractDay memberCfg env)
        (initialExtractState store0, ⟨0, 0, []⟩)).1.store), ⟨0, 0, []⟩)).1.writes = 0
    rw [hskip]
    rfl
  · show ((dayRange d1 d2).foldl (extractDay memberCfg env)
      (initialExtractState (((dayRange d1 d2).foldl (extractDay memberCfg env)
        (initialExtractState store0, ⟨0, 0, []⟩)).1.store), ⟨0, 0, []⟩)).1.store =
      ((dayRange d1 d2).foldl (extractDay memberCfg env)
        (initialExtractState store0, ⟨0, 0, []⟩)).1.store
    rw [hskip]
    rfl
  · show ((dayRange d1 d2).foldl (extractDay memberCfg env)
      (initialExtractState (((dayRange d1 d2).foldl (extractDay memberCfg env)
        (initialExtractState store0, ⟨0, 0, []⟩)).1.store), ⟨0, 0, []⟩)).2.files =
      (dayRange d1 d2).map (fun date => getFullPath env.basePath (relPath memberCfg date))
    rw [hskip]
    show [] ++ (dayRange d1 d2).map
      (fun date => getFullPath env.basePath (relPath memberCfg date)) = _
    rw [List.nil_append]

def c2Env : ExtractEnv :=
  ⟨"tmp", none, 10, fun _ => .ok (.obj [("ok", .bool true)]), fun l => l,
    fun _ => .ok [[("user_id", .str "U1"), ("email_address", .str "a@x.co")]]⟩

theorem extract_idempotent_second_run_witness :
    parseDate "2024-01-01" = some ⟨2024, 1, 1⟩
    ∧ dateSerial ⟨2024, 1, 1⟩ ≤ dateSerial ⟨2024, 1, 1⟩
    ∧ (extractMemberAnalytics c2Env ⟨[]⟩ "2024-01-01" "2024-01-01").1.extracted +
        (extractMemberAnalytics c2Env ⟨[]⟩ "2024-01-01" "2024-01-01").1.skipped =
        (dayRange "2024-01-01" "2024-01-01").length
    ∧ (extractMemberAnalytics c2Env
        (extractMemberAnalytics c2Env ⟨[]⟩ "2024-01-01" "2024-01-01").2.store
        "2024-01-01" "2024-01-01").1.skipped =
        (dateSerial ⟨2024, 1, 1⟩ - dateSerial ⟨2024, 1, 1⟩).toNat + 1 :=
  ⟨rfl, le_refl _, rfl,
    (extract_idempotent_second_run c2Env ⟨[]⟩ "2024-01-01" "2024-01-01"
      ⟨2024, 1, 1⟩ ⟨2024, 1, 1⟩ rfl rfl (le_refl _) rfl).2.1⟩

end SlackMP
